import Mathlib

/-!
Shallow embedding of the streaming log aggregation and benchmark harness
implemented in `src/etl/streaming_processor.py` (class `StreamingLogProcessor`).

Modelling conventions:
- A raw input line is abstracted by `RawLine`: it is either blank after
  stripping, structurally malformed (the JSON decoder raises), a well-formed
  JSON value that is not an object (the decoder returns a non-dict value, on
  which the attribute lookup of `.get` raises), or a JSON object given as an
  association list of fields.
- JSON field values are abstracted by `JValue`: `jInt` models Python numeric
  values (numbers compare with integers; exact rational arithmetic replaces
  IEEE floats in means), `jStr` models strings, `jNull` models JSON null
  (Python None: hashable and falsy), and `jOther` models a JSON array or
  object (Python list/dict: unhashable), carrying its Python truthiness.
  Comparing a non-numeric value with an integer raises `TypeError` in
  Python; this is modelled by returning `none` from `statusTest`.
- Exceptions that escape the per-line handler are modelled by `Option`:
  a `none` result of the line fold corresponds to an uncaught exception that
  aborts the whole strategy run.
- `pandas.groupby(['hour','endpoint'])` drops rows whose group key is
  missing (a `jNull` endpoint) and raises `TypeError` on an unhashable key
  (a `jOther` endpoint), in which case the handler of
  `_aggregate_by_hour_endpoint` discards the whole batch/shard table; group
  keys are sorted, and row order of aggregates is never asserted below.
- A handler-produced empty frame is `pd.DataFrame()` WITHOUT columns; if the
  streaming merge receives only such frames, `pd.concat(...).groupby` raises
  `KeyError` and the strategy aborts.  `aggregateResult` keeps this
  distinction (`none` = column-less frame) and `consolidateBatches` models
  the streaming merge over it.
- The ISO-timestamp parser (`datetime.fromisoformat` composed with the hour
  truncation `strftime('%Y-%m-%d %H:00:00')`) is kept as an explicit
  function parameter `ph : String -> Option String`; `none` models a
  `ValueError` raised on an unparseable timestamp string.
-/

/-- A JSON field value, at the granularity the processor distinguishes. -/
inductive JValue where
  /-- a numeric value (Python int/float/bool) -/
  | jInt (n : Int)
  /-- a string value -/
  | jStr (s : String)
  /-- JSON null (Python None): hashable and falsy; as a group key the row is dropped -/
  | jNull
  /-- a JSON array or object (Python list/dict): unhashable, so grouping by it raises; the flag is its Python truthiness -/
  | jOther (truthy : Bool)
deriving DecidableEq, Repr

/-- One raw text line of the compressed log source, as the processor
distinguishes lines after `line.strip()` and `json.loads(line)`. -/
inductive RawLine where
  /-- blank or whitespace-only after stripping: silently skipped -/
  | blank
  /-- `json.loads` raises `JSONDecodeError` -/
  | malformed
  /-- `json.loads` succeeds but yields a non-object value; `.get` raises `AttributeError` -/
  | jsonNonObj
  /-- `json.loads` yields an object with the given fields -/
  | jsonObj (fields : List (String × JValue))
deriving DecidableEq, Repr

/-- The cleaned unit of work produced by `_clean_log_record`. -/
structure NormalizedRecord where
  hour : String
  endpoint : JValue
  status_code : JValue
  response_time_ms : JValue
  method : JValue
  level : JValue
  error_rate : ℚ
deriving DecidableEq, Repr

/-- One row of a partial or final aggregate table keyed by `(hour, endpoint)`. -/
structure AggRow where
  hour : String
  endpoint : JValue
  count : Nat
  avg_response_time : ℚ
  error_rate : ℚ
deriving DecidableEq, Repr

/-- `self.chunk_size` in `StreamingLogProcessor.__init__`. -/
def chunk_size : Nat := 100000

/-- `self.min_status_code` in `StreamingLogProcessor.__init__`. -/
def min_status_code : Int := 500

/-- `record.get(key, default)` on the JSON object's fields. -/
def jget (fields : List (String × JValue)) (key : String) (dflt : JValue) : JValue :=
  match fields.lookup key with
  | some v => v
  | none => dflt

/-- Whether a value is numeric (usable in pandas means without raising). -/
def JValue.isNum : JValue → Bool
  | .jInt _ => true
  | _ => false

/-- The numeric content of a value (only meaningful when `isNum`). -/
def JValue.numVal : JValue → ℚ
  | .jInt n => (n : ℚ)
  | _ => 0

/-- Whether a value can serve as a pandas group key without raising (Python
hashable): arrays and objects are unhashable, so `groupby` on such a key
raises `TypeError`. -/
def JValue.hashable : JValue → Bool
  | .jOther _ => false
  | _ => true

/-- Python's `v >= 500` comparison against `min_status_code`: `some b` when the
comparison succeeds with result `b`, `none` when it raises `TypeError`
(string or other non-numeric operand). -/
def statusTest (v : JValue) : Option Bool :=
  match v with
  | .jInt n => some (decide (min_status_code ≤ n))
  | _ => none

/-- The epoch sentinel hour used when the timestamp is absent. -/
def epochHour : String := "1970-01-01 00:00:00"

/-- Lines 397-403 of `_clean_log_record`: `record.get('timestamp', '')`,
Python truthiness test, then ISO parsing plus hour truncation (abstracted by
`ph`).  `some h` is a computed hour bucket; `none` is an exception inside the
cleaner (caught by its handler, which then returns `None`). -/
def hourOf (ph : String → Option String) (ts : JValue) : Option String :=
  match ts with
  | .jStr s => if s = "" then some epochHour else ph s
  | .jInt n => if n = 0 then some epochHour else none
  | .jNull => some epochHour
  | .jOther t => if t then none else some epochHour

/-- `_clean_log_record` (lines 393-422): returns `some` cleaned record, or
`none` when any exception occurs inside (caught by its broad handler). -/
def clean_log_record (ph : String → Option String)
    (fields : List (String × JValue)) : Option NormalizedRecord :=
  match hourOf ph (jget fields "timestamp" (.jStr "")) with
  | none => none
  | some hour =>
    match statusTest (jget fields "status_code" (.jInt 0)) with
    | none => none
    | some b =>
      some { hour := hour
             endpoint := jget fields "endpoint" (.jStr "unknown")
             status_code := jget fields "status_code" (.jInt 0)
             response_time_ms := jget fields "response_time_ms" (.jInt 0)
             method := jget fields "method" (.jStr "GET")
             level := jget fields "level" (.jStr "INFO")
             error_rate := if b then 1 else 0 }

/-- The `(hour, endpoint)` group key of a record: `none` for a null endpoint,
whose row pandas' groupby silently drops (dropna).  An unhashable (`jOther`)
endpoint also maps to `none`, but that case is only reachable when the whole
aggregation has already failed (see `aggOK`): pandas raises before any row
is grouped. -/
def groupKey (r : NormalizedRecord) : Option (String × JValue) :=
  match r.endpoint with
  | .jNull => none
  | .jOther _ => none
  | e => some (r.hour, e)

/-- The `(hour, endpoint)` group key of an aggregate row. -/
def rowKey (row : AggRow) : Option (String × JValue) :=
  match row.endpoint with
  | .jNull => none
  | .jOther _ => none
  | e => some (row.hour, e)

/-- Records annotated with their group key (rows with a null key dropped). -/
def keyedRecords (records : List NormalizedRecord) :
    List ((String × JValue) × NormalizedRecord) :=
  records.filterMap (fun r => (groupKey r).map (fun k => (k, r)))

/-- Aggregate rows annotated with their group key (null keys dropped). -/
def keyedRows (rows : List AggRow) : List ((String × JValue) × AggRow) :=
  rows.filterMap (fun r => (rowKey r).map (fun k => (k, r)))

/-- The values grouped under key `k` in a keyed list. -/
def grpAt {K β : Type} [DecidableEq K] (k : K) (ps : List (K × β)) : List β :=
  (ps.filter (fun p => p.1 = k)).map Prod.snd

/-- The aggregation-succeeds condition: every record's endpoint is hashable
(an unhashable group key makes `groupby` itself raise `TypeError`), and every
grouped record carries a numeric `response_time_ms` (otherwise pandas' mean
raises `TypeError`).  Either exception is caught by the handler of
`_aggregate_by_hour_endpoint`, which then discards the whole batch/shard
table. -/
def aggOK (records : List NormalizedRecord) : Prop :=
  (∀ r ∈ records, (JValue.hashable r.endpoint) = true) ∧
  (∀ p ∈ keyedRecords records, (JValue.isNum p.2.response_time_ms) = true)

instance (records : List NormalizedRecord) : Decidable (aggOK records) := by
  unfold aggOK
  infer_instance

/-- `_aggregate_by_hour_endpoint` (lines 424-441): group the batch by
`(hour, endpoint)` and compute `count` (group size), `avg_response_time`
(mean of `response_time_ms`) and `error_rate` (mean of `error_rate`).  When
pandas' aggregation raises (an unhashable endpoint anywhere in the batch, or
a grouped row with non-numeric `response_time_ms`), the handler returns an
empty table. -/
def aggregate_by_hour_endpoint (records : List NormalizedRecord) : List AggRow :=
  if _h : aggOK records then
    (((keyedRecords records).map Prod.fst).dedup).map (fun k =>
      { hour := k.1
        endpoint := k.2
        count := (grpAt k (keyedRecords records)).length
        avg_response_time :=
          (((grpAt k (keyedRecords records)).map
            (fun r => JValue.numVal r.response_time_ms)).sum)
            / ((grpAt k (keyedRecords records)).length : ℚ)
        error_rate := (((grpAt k (keyedRecords records)).map
            NormalizedRecord.error_rate).sum)
            / ((grpAt k (keyedRecords records)).length : ℚ) })
  else []

/-- The DataFrame `_aggregate_by_hour_endpoint` actually returns,
distinguishing a handler-produced (or empty-input, lines 426-427) empty frame
WITHOUT columns (`none`) from a genuine, possibly zero-row, typed table
(`some`).  Row-wise the two coincide with `aggregate_by_hour_endpoint`. -/
def aggregateResult (records : List NormalizedRecord) : Option (List AggRow) :=
  if records.isEmpty then none
  else if aggOK records then some (aggregate_by_hour_endpoint records) else none

/-- The merge step shared by all strategies (lines 117-123, 190-196, 353-359):
concatenate the partial tables and group by `(hour, endpoint)` with
`count = sum`, `avg_response_time = mean`, `error_rate = mean` over the
contributing partial rows. -/
def mergeRows (rows : List AggRow) : List AggRow :=
  (((keyedRows rows).map Prod.fst).dedup).map (fun k =>
    { hour := k.1
      endpoint := k.2
      count := ((grpAt k (keyedRows rows)).map AggRow.count).sum
      avg_response_time := (((grpAt k (keyedRows rows)).map AggRow.avg_response_time).sum)
        / ((grpAt k (keyedRows rows)).length : ℚ)
      error_rate := (((grpAt k (keyedRows rows)).map AggRow.error_rate).sum)
        / ((grpAt k (keyedRows rows)).length : ℚ) })

/-- The guarded consolidation over typed partial tables (`if processed_dfs:`
in the multiprocessing strategy, whose parent keeps only non-empty tables,
lines 186-198; also the claim-level merge over PartialAggregates): an empty
collection yields an empty final table instead of an error.  The streaming
strategy's merge, which can also receive handler-produced column-less
frames, is `consolidateBatches`. -/
def mergeAggs (parts : List (List AggRow)) : List AggRow :=
  if parts.isEmpty then [] else mergeRows parts.flatten

/-- The streaming merge (lines 116-125): `records` collects every flushed
frame, including handler-produced column-less empties.  An empty collection
yields an empty final table; a non-empty collection consisting only of
column-less frames makes `pd.concat(records).groupby(['hour','endpoint'])`
raise `KeyError` (modelled as `none`: the exception is re-raised by the
strategy-level handler and the strategy aborts); otherwise the rows of the
typed frames are re-grouped. -/
def consolidateBatches (parts : List (Option (List AggRow))) : Option (List AggRow) :=
  if parts.isEmpty then some []
  else if parts.all (fun p => p.isNone) then none
  else some (mergeRows (parts.filterMap id).flatten)

/-- Mutable loop state of `process_with_pandas_streaming` (lines 68-114). -/
structure PipeState where
  total_records : Nat
  filtered_records : Nat
  error_records : Nat
  batch : List NormalizedRecord
  aggs : List (Option (List AggRow))
deriving DecidableEq, Repr

/-- The initial loop state. -/
def initState : PipeState := { total_records := 0, filtered_records := 0,
                               error_records := 0, batch := [], aggs := [] }

/-- Lines 95-100: once the batch reaches `chunk_size`, aggregate it, store the
resulting frame (typed table or column-less empty) and clear the batch. -/
def flushIfFull (cs : Nat) (st : PipeState) : PipeState :=
  if cs ≤ st.batch.length then
    { st with aggs := st.aggs ++ [aggregateResult st.batch], batch := [] }
  else st

/-- One iteration of the line loop of `process_with_pandas_streaming`
(lines 77-108).  `none` models an exception that escapes the per-line
handler (which only catches `JSONDecodeError`) and aborts the strategy:
this happens for a non-object JSON line (`AttributeError` on `.get`) and for
an object whose `status_code` is not integer-comparable (`TypeError`). -/
def processLine (ph : String → Option String) (cs : Nat) (st : PipeState) :
    RawLine → Option PipeState
  | .blank => some st
  | .malformed => some { st with error_records := st.error_records + 1 }
  | .jsonNonObj => none
  | .jsonObj fields =>
    let st1 := { st with total_records := st.total_records + 1 }
    match statusTest (jget fields "status_code" (.jInt 0)) with
    | none => none
    | some false => some (flushIfFull cs st1)
    | some true =>
      let st2 := { st1 with filtered_records := st1.filtered_records + 1 }
      let st3 := match clean_log_record ph fields with
                 | some r => { st2 with batch := st2.batch ++ [r] }
                 | none => st2
      some (flushIfFull cs st3)

/-- Fold the line loop over a list of lines from an arbitrary state. -/
def runFrom (ph : String → Option String) (cs : Nat) (st : PipeState)
    (lines : List RawLine) : Option PipeState :=
  lines.foldl (fun acc l => acc.bind (fun s => processLine ph cs s l)) (some st)

/-- The whole line loop of `process_with_pandas_streaming` from the initial
state. -/
def runLines (ph : String → Option String) (cs : Nat) (lines : List RawLine) :
    Option PipeState :=
  runFrom ph cs initState lines

/-- Lines 110-114: aggregate the remaining batch after end of stream. -/
def finalFlush (st : PipeState) : PipeState :=
  if st.batch.isEmpty then st
  else { st with aggs := st.aggs ++ [aggregateResult st.batch], batch := [] }

/-- `process_with_pandas_streaming` restricted to its data path: run the line
loop, flush the trailing batch and merge the accumulated frames.  `none`
models the strategy raising out of its body — by a per-line exception
escaping the narrow handler, or by the `KeyError` of merging only
column-less frames. -/
def processFile (ph : String → Option String) (cs : Nat) (lines : List RawLine) :
    Option (PipeState × List AggRow) :=
  (runLines ph cs lines).bind (fun st =>
    let st1 := finalFlush st
    (consolidateBatches st1.aggs).map (fun final => (st1, final)))

/-- Loop state of `_process_chunk_multiprocessing` (lines 486-508); the worker
accumulates all cleaned records of its shard and aggregates once at the end. -/
structure ChunkAcc where
  total_records : Nat
  filtered_records : Nat
  error_records : Nat
  recs : List NormalizedRecord
deriving DecidableEq, Repr

/-- One iteration of the worker's line loop (lines 492-508); same per-line
logic as the single-process loop but with no intermediate batch flush. -/
def chunkLine (ph : String → Option String) (a : ChunkAcc) :
    RawLine → Option ChunkAcc
  | .blank => some a
  | .malformed => some { a with error_records := a.error_records + 1 }
  | .jsonNonObj => none
  | .jsonObj fields =>
    let a1 := { a with total_records := a.total_records + 1 }
    match statusTest (jget fields "status_code" (.jInt 0)) with
    | none => none
    | some false => some a1
    | some true =>
      let a2 := { a1 with filtered_records := a1.filtered_records + 1 }
      some (match clean_log_record ph fields with
            | some r => { a2 with recs := a2.recs ++ [r] }
            | none => a2)

/-- Result dictionary returned by a worker: `{status: success, stats, data}`
or `{status: error, error: msg}` with zeroed stats. -/
inductive ChunkResult where
  | success (total_records filtered_records error_records : Nat) (data : List AggRow)
  | failure
deriving DecidableEq, Repr

/-- `_process_chunk_multiprocessing` (lines 483-537): the whole shard body is
wrapped in a broad handler, so any exception becomes a `failure` result
instead of crashing the pool. -/
def process_chunk_multiprocessing (ph : String → Option String)
    (lines : List RawLine) : ChunkResult :=
  match lines.foldl (fun acc l => acc.bind (fun a => chunkLine ph a l))
      (some { total_records := 0, filtered_records := 0, error_records := 0, recs := [] }) with
  | some a => .success a.total_records a.filtered_records a.error_records
      (aggregate_by_hour_endpoint a.recs)
  | none => .failure

/-- Parent-side totals consolidated from the worker results (lines 175-187):
only `success` results contribute stats, and only non-empty tables are kept. -/
structure Consolidated where
  total_records : Nat
  filtered_records : Nat
  error_records : Nat
  dfs : List (List AggRow)
deriving DecidableEq, Repr

/-- Lines 181-187 of `process_with_multiprocessing`. -/
def consolidate (results : List ChunkResult) : Consolidated :=
  results.foldl (fun c r =>
    match r with
    | .success t f e data =>
      { total_records := c.total_records + t
        filtered_records := c.filtered_records + f
        error_records := c.error_records + e
        dfs := if data.isEmpty then c.dfs else c.dfs ++ [data] }
    | .failure => c)
    { total_records := 0, filtered_records := 0, error_records := 0, dfs := [] }

/-- Lines 189-198: the final table of the multiprocessing strategy. -/
def multiprocessingFinal (results : List ChunkResult) : List AggRow :=
  mergeAggs (consolidate results).dfs

/-- The per-line loop body of `_split_log_file_for_multiprocessing`
(lines 456-467): append the raw line to the current shard, and flush the
shard once it holds `k` lines. -/
def splitLoop {α : Type} (k : Nat) (acc : List α) : List α → List (List α)
  | [] => if acc.isEmpty then [] else [acc]
  | x :: xs =>
    let acc2 := acc ++ [x]
    if k ≤ acc2.length then acc2 :: splitLoop k [] xs
    else splitLoop k acc2 xs

/-- `_split_log_file_for_multiprocessing` (lines 443-481): split the raw line
sequence into shards of up to `k` lines (the source fixes `k = 1000000`),
in order, without dropping or reordering lines. -/
def split_log_file_for_multiprocessing {α : Type} (k : Nat) (lines : List α) :
    List (List α) :=
  splitLoop k [] lines

/-- The observable behaviour of one benchmark strategy invocation: it either
returns a stats dictionary (throughput and memory delta retained), raises an
exception, or returns a skipped dictionary because its engine is not
importable (lines 229-231 and 320-322). -/
inductive StratOutcome where
  | ok (rps : ℚ) (mem : ℚ)
  | raises (msg : String)
  | notAvail (reason : String)
deriving DecidableEq, Repr

/-- The entry recorded for one strategy in the results mapping. -/
inductive StratResult where
  | success (rps : ℚ) (mem : ℚ)
  | failed (msg : String)
  | skippedEntry (reason : String)
deriving DecidableEq, Repr

/-- One `try/except` block of `run_all_benchmarks` (lines 561-587): a raising
strategy is recorded as `{status: error, error: msg}`, a skipped strategy's
dictionary is recorded as returned, and a successful strategy's stats are
recorded as returned. -/
def wrapStrategy : StratOutcome → StratResult
  | .ok r m => .success r m
  | .raises msg => .failed msg
  | .notAvail reason => .skippedEntry reason

/-- The results mapping built by running every configured strategy in order. -/
def benchResults (strats : List (String × StratOutcome)) : List (String × StratResult) :=
  strats.map (fun ns => (ns.1, wrapStrategy ns.2))

/-- `run_all_benchmarks` (lines 547-592): when the input file is missing the
orchestrator returns the typed marker `{error: input_file_not_found}` before
any strategy runs (lines 554-556); otherwise every strategy is run behind its
own handler and the results mapping is produced. -/
def run_all_benchmarks (inputExists : Bool) (strats : List (String × StratOutcome)) :
    Except String (List (String × StratResult)) :=
  if inputExists then .ok (benchResults strats) else .error "input_file_not_found"

/-- Whether a results entry is neither an error nor skipped (line 621-622 of
`_generate_benchmark_report`). -/
def isSuccessR : StratResult → Bool
  | .success _ _ => true
  | _ => false

/-- `valid_results` of `_generate_benchmark_report`. -/
def validResults (results : List (String × StratResult)) : List (String × StratResult) :=
  results.filter (fun nr => isSuccessR nr.2)

/-- `records_per_second` read from an entry (`.get(..., 0)`). -/
def rpsOf : StratResult → ℚ
  | .success r _ => r
  | _ => 0

/-- `memory_used_mb` read from an entry. -/
def memOf : StratResult → ℚ
  | .success _ m => m
  | _ => 0

/-- Python's `max(items, key=...)`: the first entry attaining the maximum
(later entries replace the current best only when strictly greater).
Lines 625-626: computed over `valid_results` only. -/
def fastestStrategy (results : List (String × StratResult)) :
    Option (String × StratResult) :=
  match validResults results with
  | [] => none
  | x :: xs => some (xs.foldl (fun b c => if rpsOf b.2 < rpsOf c.2 then c else b) x)

/-- Python's `min(items, key=...)` over `valid_results` (lines 629-630). -/
def memEfficientStrategy (results : List (String × StratResult)) :
    Option (String × StratResult) :=
  match validResults results with
  | [] => none
  | x :: xs => some (xs.foldl (fun b c => if memOf c.2 < memOf b.2 then c else b) x)

/-- Line classification: blank after stripping. -/
def isBlankL : RawLine → Bool
  | .blank => true
  | _ => false

/-- Line classification: JSON decoding raises. -/
def isMalformedL : RawLine → Bool
  | .malformed => true
  | _ => false

/-- Line classification: parses to a JSON object. -/
def isObjL : RawLine → Bool
  | .jsonObj _ => true
  | _ => false

/-- A line whose processing stays inside the per-line handler: blank and
malformed lines always do; an object line does when its `status_code` field
(default `0`) is integer-comparable; a non-object JSON line never does. -/
def lineOk : RawLine → Bool
  | .blank => true
  | .malformed => true
  | .jsonNonObj => false
  | .jsonObj fields => (statusTest (jget fields "status_code" (.jInt 0))).isSome

/-- A line that passes the `status_code >= 500` filter (lines 87-88). -/
def passesFilter : RawLine → Bool
  | .jsonObj fields => statusTest (jget fields "status_code" (.jInt 0)) == some true
  | _ => false

/-- A line that contributes one record to some `(hour, endpoint)` group: it
parses to an object, passes the status filter, the cleaner succeeds on it and
its cleaned endpoint is not dropped by the grouping. -/
def contributes (ph : String → Option String) : RawLine → Bool
  | .jsonObj fields =>
    (statusTest (jget fields "status_code" (.jInt 0)) == some true) &&
      (match clean_log_record ph fields with
       | some r => (groupKey r).isSome
       | none => false)
  | _ => false

/-- An object line whose `response_time_ms` field (default `0`) is numeric, so
that pandas aggregation over any batch containing its record cannot raise;
non-object lines satisfy this vacuously. -/
def numericLine : RawLine → Bool
  | .jsonObj fields => (jget fields "response_time_ms" (.jInt 0)).isNum
  | _ => true

/-- An object line whose cleaned endpoint (the `endpoint` field, default
`"unknown"`) is hashable, so that grouping a batch containing its record
cannot raise; non-object lines satisfy this vacuously. -/
def hashableLine : RawLine → Bool
  | .jsonObj fields => JValue.hashable (jget fields "endpoint" (.jStr "unknown"))
  | _ => true

/-- Total `count` over the rows of an aggregate table. -/
def totalCount (rows : List AggRow) : Nat := (rows.map AggRow.count).sum

/-- The `count` registered for key `k` in an aggregate table (`0` if the key
carries no row; rows are summed, which coincides with the single row's count
when keys are unique). -/
def keyCount (k : String × JValue) (rows : List AggRow) : Nat :=
  (rows.map (fun row => if rowKey row = some k then row.count else 0)).sum

/-- A key that the grouping keeps (its endpoint component is neither null nor
an unhashable container). -/
def liveKey (k : String × JValue) : Bool :=
  match k.2 with
  | .jInt _ => true
  | .jStr _ => true
  | _ => false

lemma sum_map_add {α : Type} (A B : α → ℕ) (l : List α) :
    (l.map (fun x => A x + B x)).sum = (l.map A).sum + (l.map B).sum := by
  induction l with
  | nil => simp
  | cons a t ih => simp [ih]; omega

lemma sum_ite_of_nodup {K : Type} [DecidableEq K] (l : List K) (hl : l.Nodup)
    (k : K) (g : K → ℕ) :
    (l.map (fun j => if j = k then g j else 0)).sum = if k ∈ l then g k else 0 := by
  induction l with
  | nil => simp
  | cons a t ih =>
    rcases List.nodup_cons.mp hl with ⟨ha, ht⟩
    by_cases hak : a = k
    · subst hak
      simp [ih ht, ha]
    · have hka : k ≠ a := fun h => hak h.symm
      simp [hak, ih ht, List.mem_cons, hka]

lemma sum_ite_filter {α : Type} (p : α → Prop) [DecidablePred p] (w : α → ℕ)
    (l : List α) :
    (l.map (fun x => if p x then w x else 0)).sum =
      ((l.filter (fun x => p x)).map w).sum := by
  induction l with
  | nil => simp
  | cons a t ih =>
    by_cases hp : p a <;> simp [hp, ih, List.filter_cons]

lemma grpAt_cons {K β : Type} [DecidableEq K] (k : K) (p : K × β) (t : List (K × β)) :
    grpAt k (p :: t) = (if p.1 = k then [p.2] else []) ++ grpAt k t := by
  by_cases h : p.1 = k <;> simp [grpAt, List.filter_cons, h]

lemma grpAt_eq_nil {K β : Type} [DecidableEq K] (k : K) (ps : List (K × β))
    (h : k ∉ ps.map Prod.fst) : grpAt k ps = [] := by
  induction ps with
  | nil => rfl
  | cons p t ih =>
    simp only [List.map_cons, List.mem_cons, not_or] at h
    rw [grpAt_cons, if_neg (fun he => h.1 he.symm), List.nil_append]
    exact ih h.2

lemma grpAt_filterMap {α K : Type} [DecidableEq K] (f : α → Option K) (k : K)
    (l : List α) :
    grpAt k (l.filterMap (fun a => (f a).map (fun j => (j, a)))) =
      l.filter (fun a => f a = some k) := by
  induction l with
  | nil => rfl
  | cons a t ih =>
    cases hfa : f a with
    | none => simpa [List.filterMap_cons, hfa, List.filter_cons] using ih
    | some j =>
      by_cases hjk : j = k
      · subst hjk
        simpa [List.filterMap_cons, hfa, grpAt_cons, List.filter_cons] using ih
      · simpa [List.filterMap_cons, hfa, grpAt_cons, hjk, List.filter_cons] using ih

lemma grpAt_append {K β : Type} [DecidableEq K] (k : K) (ps qs : List (K × β)) :
    grpAt k (ps ++ qs) = grpAt k ps ++ grpAt k qs := by
  simp [grpAt, List.filter_append]

lemma partition_sum {K β : Type} [DecidableEq K] (w : β → ℕ) (ps : List (K × β)) :
    (((ps.map Prod.fst).dedup).map (fun k => ((grpAt k ps).map w).sum)).sum
      = (ps.map (fun p => w p.2)).sum := by
  induction ps with
  | nil => rfl
  | cons p t ih =>
    have hsplit : ∀ L : List K, L.Nodup →
        (L.map (fun k => ((grpAt k (p :: t)).map w).sum)).sum
          = (if p.1 ∈ L then w p.2 else 0)
            + (L.map (fun k => ((grpAt k t).map w).sum)).sum := by
      intro L hL
      have h1 : ∀ k, ((grpAt k (p :: t)).map w).sum
          = (if p.1 = k then w p.2 else 0) + ((grpAt k t).map w).sum := by
        intro k
        rw [grpAt_cons]
        by_cases h : p.1 = k <;> simp [h]
      calc (L.map (fun k => ((grpAt k (p :: t)).map w).sum)).sum
          = (L.map (fun k => (if p.1 = k then w p.2 else 0)
              + ((grpAt k t).map w).sum)).sum := by
            exact congrArg List.sum (List.map_congr_left (fun k _ => h1 k))
        _ = (L.map (fun k => if p.1 = k then w p.2 else 0)).sum
              + (L.map (fun k => ((grpAt k t).map w).sum)).sum := by
            exact sum_map_add _ _ L
        _ = (if p.1 ∈ L then w p.2 else 0)
              + (L.map (fun k => ((grpAt k t).map w).sum)).sum := by
            have := sum_ite_of_nodup L hL p.1 (fun _ => w p.2)
            simp only [eq_comm (a := p.1)] at this ⊢
            rw [this]
    by_cases hmem : p.1 ∈ t.map Prod.fst
    · have hd : ((p :: t).map Prod.fst).dedup = (t.map Prod.fst).dedup := by
        simp [List.dedup_cons_of_mem, hmem]
      rw [hd, hsplit _ (List.nodup_dedup _),
        if_pos ((List.mem_dedup).2 hmem), ih]
      simp
    · have hd : ((p :: t).map Prod.fst).dedup = p.1 :: (t.map Prod.fst).dedup := by
        simp [List.dedup_cons_of_not_mem, hmem]
      rw [hd, hsplit _ ((List.nodup_dedup _).cons (by
        intro hc; exact hmem ((List.mem_dedup).1 hc)))]
      simp only [List.mem_cons, true_or, if_pos, List.map_cons, List.sum_cons]
      rw [grpAt_eq_nil _ _ hmem]
      simp [ih]

lemma groupKey_live {r : NormalizedRecord} {k : String × JValue}
    (h : groupKey r = some k) : liveKey k = true := by
  unfold groupKey at h
  cases he : r.endpoint <;> rw [he] at h
  case jInt n => cases Option.some.inj h; rfl
  case jStr s => cases Option.some.inj h; rfl
  case jNull => exact absurd h (by simp)
  case jOther t => exact absurd h (by simp)

lemma rowKey_live {row : AggRow} {k : String × JValue}
    (h : rowKey row = some k) : liveKey k = true := by
  unfold rowKey at h
  cases he : row.endpoint <;> rw [he] at h
  case jInt n => cases Option.some.inj h; rfl
  case jStr s => cases Option.some.inj h; rfl
  case jNull => exact absurd h (by simp)
  case jOther t => exact absurd h (by simp)

lemma rowKey_mk (k : String × JValue) (hk : liveKey k = true)
    (c : Nat) (avg er : ℚ) :
    rowKey { hour := k.1, endpoint := k.2, count := c,
             avg_response_time := avg, error_rate := er } = some k := by
  obtain ⟨k1, k2⟩ := k
  cases k2 with
  | jInt n => rfl
  | jStr s => rfl
  | jNull => exact absurd hk (by simp [liveKey])
  | jOther t => exact absurd hk (by simp [liveKey])

lemma mem_keyedRecords {p : (String × JValue) × NormalizedRecord}
    {records : List NormalizedRecord} (h : p ∈ keyedRecords records) :
    p.2 ∈ records ∧ groupKey p.2 = some p.1 := by
  unfold keyedRecords at h
  rcases List.mem_filterMap.1 h with ⟨r, hr, hmap⟩
  rcases Option.map_eq_some'.1 hmap with ⟨k, hk, hpk⟩
  cases hpk
  exact ⟨hr, hk⟩

lemma mem_keyedRows {p : (String × JValue) × AggRow}
    {rows : List AggRow} (h : p ∈ keyedRows rows) :
    p.2 ∈ rows ∧ rowKey p.2 = some p.1 := by
  unfold keyedRows at h
  rcases List.mem_filterMap.1 h with ⟨r, hr, hmap⟩
  rcases Option.map_eq_some'.1 hmap with ⟨k, hk, hpk⟩
  cases hpk
  exact ⟨hr, hk⟩

lemma keyedRecords_fst_live {j : String × JValue} {records : List NormalizedRecord}
    (h : j ∈ (keyedRecords records).map Prod.fst) : liveKey j = true := by
  rcases List.mem_map.1 h with ⟨p, hp, hj⟩
  subst hj
  exact groupKey_live (mem_keyedRecords hp).2

lemma keyedRows_fst_live {j : String × JValue} {rows : List AggRow}
    (h : j ∈ (keyedRows rows).map Prod.fst) : liveKey j = true := by
  rcases List.mem_map.1 h with ⟨p, hp, hj⟩
  subst hj
  exact rowKey_live (mem_keyedRows hp).2

lemma grpAt_keyedRecords (k : String × JValue) (records : List NormalizedRecord) :
    grpAt k (keyedRecords records) = records.filter (fun r => groupKey r = some k) :=
  grpAt_filterMap groupKey k records

lemma grpAt_keyedRows (k : String × JValue) (rows : List AggRow) :
    grpAt k (keyedRows rows) = rows.filter (fun r => rowKey r = some k) :=
  grpAt_filterMap rowKey k rows

lemma length_filterMap_countP {α β : Type} (f : α → Option β) (l : List α) :
    (l.filterMap f).length = l.countP (fun a => (f a).isSome) := by
  induction l with
  | nil => rfl
  | cons a t ih =>
    cases hfa : f a <;>
      simp [List.filterMap_cons, hfa, List.countP_cons, ih]

lemma aggOK_of_ok {records : List NormalizedRecord}
    (h1 : ∀ r ∈ records, (JValue.hashable r.endpoint) = true)
    (h2 : ∀ r ∈ records, r.response_time_ms.isNum = true) : aggOK records :=
  ⟨h1, fun p hp => h2 p.2 (mem_keyedRecords hp).1⟩

/-- The count registered for key `k` by one batch aggregation is the number of
batch records whose group key is `k`. -/
lemma keyCount_aggregate (k : String × JValue) {records : List NormalizedRecord}
    (h : aggOK records) :
    keyCount k (aggregate_by_hour_endpoint records)
      = (records.filter (fun r => groupKey r = some k)).length := by
  unfold aggregate_by_hour_endpoint
  rw [dif_pos h]
  unfold keyCount
  rw [List.map_map]
  have hrw : ∀ j ∈ ((keyedRecords records).map Prod.fst).dedup,
      ((fun row => if rowKey row = some k then row.count else 0) ∘ (fun k' =>
        ({ hour := k'.1, endpoint := k'.2,
           count := (grpAt k' (keyedRecords records)).length,
           avg_response_time :=
             (((grpAt k' (keyedRecords records)).map
               (fun r => JValue.numVal r.response_time_ms)).sum)
               / ((grpAt k' (keyedRecords records)).length : ℚ),
           error_rate := (((grpAt k' (keyedRecords records)).map
               NormalizedRecord.error_rate).sum)
               / ((grpAt k' (keyedRecords records)).length : ℚ) } : AggRow))) j
      = (fun j => if j = k then (grpAt j (keyedRecords records)).length else 0) j := by
    intro j hj
    have hlive : liveKey j = true :=
      keyedRecords_fst_live ((List.mem_dedup).1 hj)
    simp only [Function.comp_apply]
    rw [rowKey_mk j hlive]
    by_cases hjk : j = k <;> simp [hjk]
  rw [List.map_congr_left hrw,
    sum_ite_of_nodup _ (List.nodup_dedup _) k
      (fun j => (grpAt j (keyedRecords records)).length)]
  by_cases hk : k ∈ ((keyedRecords records).map Prod.fst).dedup
  · rw [if_pos hk, grpAt_keyedRecords]
  · rw [if_neg hk]
    have hnil : grpAt k (keyedRecords records) = [] :=
      grpAt_eq_nil _ _ (fun hmem => hk ((List.mem_dedup).2 hmem))
    rw [grpAt_keyedRecords] at hnil
    rw [hnil]
    rfl

lemma sum_map_one {α : Type} (l : List α) : (l.map (fun _ => (1 : ℕ))).sum = l.length := by
  induction l with
  | nil => rfl
  | cons a t ih =>
    simp [ih]
    omega

/-- One batch aggregation accounts each grouped record exactly once: the total
`count` over its rows is the number of records whose group key survives. -/
lemma totalCount_aggregate {records : List NormalizedRecord} (h : aggOK records) :
    totalCount (aggregate_by_hour_endpoint records)
      = records.countP (fun r => (groupKey r).isSome) := by
  unfold aggregate_by_hour_endpoint
  rw [dif_pos h]
  unfold totalCount
  rw [List.map_map]
  have hrw : ∀ j ∈ ((keyedRecords records).map Prod.fst).dedup,
      (AggRow.count ∘ (fun k' =>
        ({ hour := k'.1, endpoint := k'.2,
           count := (grpAt k' (keyedRecords records)).length,
           avg_response_time :=
             (((grpAt k' (keyedRecords records)).map
               (fun r => JValue.numVal r.response_time_ms)).sum)
               / ((grpAt k' (keyedRecords records)).length : ℚ),
           error_rate := (((grpAt k' (keyedRecords records)).map
               NormalizedRecord.error_rate).sum)
               / ((grpAt k' (keyedRecords records)).length : ℚ) } : AggRow))) j
      = (fun j => ((grpAt j (keyedRecords records)).map (fun _ => (1 : ℕ))).sum) j := by
    intro j _
    simp [sum_map_one]
  rw [List.map_congr_left hrw, partition_sum (fun _ => (1 : ℕ)) (keyedRecords records)]
  rw [sum_map_one]
  unfold keyedRecords
  rw [length_filterMap_countP]
  congr 1
  funext r
  cases hgk : groupKey r <;> simp [hgk]

/-- Merging preserves the count registered for every key: re-grouping and
summing the counts of the contributing partial rows loses nothing. -/
lemma keyCount_mergeRows (k : String × JValue) (rows : List AggRow) :
    keyCount k (mergeRows rows) = keyCount k rows := by
  unfold mergeRows keyCount
  rw [List.map_map]
  have hrw : ∀ j ∈ ((keyedRows rows).map Prod.fst).dedup,
      ((fun row => if rowKey row = some k then row.count else 0) ∘ (fun k' =>
        ({ hour := k'.1, endpoint := k'.2,
           count := ((grpAt k' (keyedRows rows)).map AggRow.count).sum,
           avg_response_time :=
             (((grpAt k' (keyedRows rows)).map AggRow.avg_response_time).sum)
               / ((grpAt k' (keyedRows rows)).length : ℚ),
           error_rate := (((grpAt k' (keyedRows rows)).map AggRow.error_rate).sum)
               / ((grpAt k' (keyedRows rows)).length : ℚ) } : AggRow))) j
      = (fun j => if j = k then ((grpAt j (keyedRows rows)).map AggRow.count).sum else 0) j := by
    intro j hj
    have hlive : liveKey j = true := keyedRows_fst_live ((List.mem_dedup).1 hj)
    simp only [Function.comp_apply]
    rw [rowKey_mk j hlive]
    by_cases hjk : j = k <;> simp [hjk]
  rw [List.map_congr_left hrw,
    sum_ite_of_nodup _ (List.nodup_dedup _) k
      (fun j => ((grpAt j (keyedRows rows)).map AggRow.count).sum)]
  have hfil : (rows.map (fun row => if rowKey row = some k then row.count else 0)).sum
      = ((grpAt k (keyedRows rows)).map AggRow.count).sum := by
    rw [sum_ite_filter (fun row => rowKey row = some k) AggRow.count rows,
      grpAt_keyedRows]
  by_cases hk : k ∈ ((keyedRows rows).map Prod.fst).dedup
  · rw [if_pos hk, hfil]
  · rw [if_neg hk, hfil]
    have hnil : grpAt k (keyedRows rows) = [] :=
      grpAt_eq_nil _ _ (fun hmem => hk ((List.mem_dedup).2 hmem))
    rw [hnil]
    rfl

lemma keyedRows_snd_of_live {rows : List AggRow}
    (h : ∀ row ∈ rows, (rowKey row).isSome = true) :
    (keyedRows rows).map Prod.snd = rows := by
  induction rows with
  | nil => rfl
  | cons row t ih =>
    have hrow := h row (List.mem_cons_self row t)
    cases hk : rowKey row with
    | none => rw [hk] at hrow; simp at hrow
    | some k =>
      unfold keyedRows
      rw [List.filterMap_cons]
      simp only [hk, Option.map_some']
      rw [List.map_cons]
      exact congrArg (row :: ·) (ih (fun r hr => h r (List.mem_cons_of_mem _ hr)))

/-- Merging preserves the total count when every contributing row has a live
key (which is the case for all rows produced by the batch aggregator). -/
lemma totalCount_mergeRows {rows : List AggRow}
    (h : ∀ row ∈ rows, (rowKey row).isSome = true) :
    totalCount (mergeRows rows) = totalCount rows := by
  unfold mergeRows totalCount
  rw [List.map_map]
  have hrw : ∀ j ∈ ((keyedRows rows).map Prod.fst).dedup,
      (AggRow.count ∘ (fun k' =>
        ({ hour := k'.1, endpoint := k'.2,
           count := ((grpAt k' (keyedRows rows)).map AggRow.count).sum,
           avg_response_time :=
             (((grpAt k' (keyedRows rows)).map AggRow.avg_response_time).sum)
               / ((grpAt k' (keyedRows rows)).length : ℚ),
           error_rate := (((grpAt k' (keyedRows rows)).map AggRow.error_rate).sum)
               / ((grpAt k' (keyedRows rows)).length : ℚ) } : AggRow))) j
      = (fun j => ((grpAt j (keyedRows rows)).map AggRow.count).sum) j := by
    intro j _
    rfl
  rw [List.map_congr_left hrw, partition_sum AggRow.count (keyedRows rows)]
  have : (keyedRows rows).map (fun p => AggRow.count p.2)
      = ((keyedRows rows).map Prod.snd).map AggRow.count := by
    rw [List.map_map]
    rfl
  rw [this, keyedRows_snd_of_live h]

/-- Every row produced by the batch aggregator has a live key. -/
lemma aggregate_rows_live {records : List NormalizedRecord} {row : AggRow}
    (h : row ∈ aggregate_by_hour_endpoint records) : (rowKey row).isSome = true := by
  unfold aggregate_by_hour_endpoint at h
  by_cases hOK : aggOK records
  · rw [dif_pos hOK] at h
    rcases List.mem_map.1 h with ⟨j, hj, hrow⟩
    have hlive : liveKey j = true := keyedRecords_fst_live ((List.mem_dedup).1 hj)
    rw [← hrow, rowKey_mk j hlive]
    rfl
  · rw [dif_neg hOK] at h
    exact absurd h (List.not_mem_nil row)

lemma mergeAggs_eq (parts : List (List AggRow)) :
    mergeAggs parts = mergeRows parts.flatten := by
  cases parts with
  | nil => rfl
  | cons p t => rfl

lemma keyCount_append (k : String × JValue) (xs ys : List AggRow) :
    keyCount k (xs ++ ys) = keyCount k xs + keyCount k ys := by
  unfold keyCount
  rw [List.map_append, List.sum_append]

lemma keyCount_flatten (k : String × JValue) (parts : List (List AggRow)) :
    keyCount k parts.flatten = (parts.map (keyCount k)).sum := by
  induction parts with
  | nil => rfl
  | cons p t ih =>
    rw [List.flatten_cons, keyCount_append, ih, List.map_cons, List.sum_cons]

lemma totalCount_append (xs ys : List AggRow) :
    totalCount (xs ++ ys) = totalCount xs + totalCount ys := by
  unfold totalCount
  rw [List.map_append, List.sum_append]

lemma totalCount_flatten (parts : List (List AggRow)) :
    totalCount parts.flatten = (parts.map totalCount).sum := by
  induction parts with
  | nil => rfl
  | cons p t ih =>
    rw [List.flatten_cons, totalCount_append, ih, List.map_cons, List.sum_cons]

/-- The count registered for `k` by the consolidated merge is the sum of the
counts registered for `k` by the individual partial tables. -/
lemma keyCount_mergeAggs (k : String × JValue) (parts : List (List AggRow)) :
    keyCount k (mergeAggs parts) = (parts.map (keyCount k)).sum := by
  rw [mergeAggs_eq, keyCount_mergeRows, keyCount_flatten]

/-- The single row that a partial table holds for key `k`, if any
(`find?` is unambiguous because keys are unique within one partial table). -/
def lookupRow (k : String × JValue) (rows : List AggRow) : Option AggRow :=
  rows.find? (fun r => rowKey r = some k)

/-- The per-partial means contributing to key `k` in the merge. -/
def avgsAt (k : String × JValue) (parts : List (List AggRow)) : List ℚ :=
  parts.filterMap (fun p => (lookupRow k p).map AggRow.avg_response_time)

/-- The per-partial error rates contributing to key `k` in the merge. -/
def errsAt (k : String × JValue) (parts : List (List AggRow)) : List ℚ :=
  parts.filterMap (fun p => (lookupRow k p).map AggRow.error_rate)

lemma filter_flatten {α : Type} (p : α → Bool) (L : List (List α)) :
    L.flatten.filter p = (L.map (fun l => l.filter p)).flatten := by
  induction L with
  | nil => rfl
  | cons l t ih =>
    rw [List.flatten_cons, List.filter_append, ih, List.map_cons, List.flatten_cons]

lemma flatten_map_toList {α β : Type} (f : α → Option β) (l : List α) :
    (l.map (fun a => (f a).toList)).flatten = l.filterMap f := by
  induction l with
  | nil => rfl
  | cons a t ih =>
    cases hfa : f a <;>
      simp [List.filterMap_cons, hfa, ih]

/-- Under unique keys, filtering a partial table for key `k` returns exactly
the looked-up row (or nothing). -/
lemma filter_eq_lookupRow {rows : List AggRow}
    (h : (rows.filterMap rowKey).Nodup) (k : String × JValue) :
    rows.filter (fun r => rowKey r = some k) = (lookupRow k rows).toList := by
  induction rows with
  | nil => rfl
  | cons r t ih =>
    cases hrk : rowKey r with
    | none =>
      have ht : (t.filterMap rowKey).Nodup := by
        rw [List.filterMap_cons, hrk] at h
        exact h
      have hrec := ih ht
      unfold lookupRow at hrec ⊢
      rw [List.filter_cons, List.find?_cons]
      simp [hrk, hrec]
    | some j =>
      have hcons : ((r :: t).filterMap rowKey) = j :: t.filterMap rowKey := by
        rw [List.filterMap_cons, hrk]
      rw [hcons] at h
      rcases List.nodup_cons.mp h with ⟨hj, ht⟩
      by_cases hjk : j = k
      · subst hjk
        have hnone : t.filter (fun r => rowKey r = some j) = [] := by
          rw [List.filter_eq_nil_iff]
          intro x hx hxk
          simp only [decide_eq_true_eq] at hxk
          exact hj (List.mem_filterMap.2 ⟨x, hx, hxk⟩)
        unfold lookupRow
        rw [List.filter_cons, List.find?_cons]
        simp [hrk, hnone]
      · have hrec := ih ht
        unfold lookupRow at hrec ⊢
        rw [List.filter_cons, List.find?_cons]
        simp [hrk, hjk, hrec]

/-- Every row of a merged table satisfies, for its key `k`: `count` is the sum
of the counts of the contributing rows with key `k`, while the means are the
straight (unweighted) average of the contributing rows' means. -/
lemma mergeRows_row_spec {rows : List AggRow} {row : AggRow}
    (h : row ∈ mergeRows rows) {k : String × JValue} (hk : rowKey row = some k) :
    row.count = ((rows.filter (fun r => rowKey r = some k)).map AggRow.count).sum ∧
    row.avg_response_time
      = ((rows.filter (fun r => rowKey r = some k)).map AggRow.avg_response_time).sum
        / ((rows.filter (fun r => rowKey r = some k)).length : ℚ) ∧
    row.error_rate
      = ((rows.filter (fun r => rowKey r = some k)).map AggRow.error_rate).sum
        / ((rows.filter (fun r => rowKey r = some k)).length : ℚ) := by
  unfold mergeRows at h
  rcases List.mem_map.1 h with ⟨j, hj, hrow⟩
  have hlive : liveKey j = true := keyedRows_fst_live ((List.mem_dedup).1 hj)
  have hkey : rowKey row = some j := by
    rw [← hrow]
    exact rowKey_mk j hlive _ _ _
  have hjk : j = k := by
    have := hkey.symm.trans hk
    exact Option.some.inj this
  subst hjk
  have hgrp := grpAt_keyedRows j rows
  constructor
  · rw [← hrow]
    simp only [← hgrp]
  constructor
  · rw [← hrow]
    simp only [← hgrp]
  · rw [← hrow]
    simp only [← hgrp]

/-- If some contributing row carries key `k`, the merged table has a row for
`k`. -/
lemma mergeRows_exists {rows : List AggRow} {r : AggRow} {k : String × JValue}
    (hr : r ∈ rows) (hk : rowKey r = some k) :
    ∃ row ∈ mergeRows rows, rowKey row = some k := by
  have hmem : k ∈ (keyedRows rows).map Prod.fst := by
    refine List.mem_map.2 ⟨(k, r), ?_, rfl⟩
    unfold keyedRows
    exact List.mem_filterMap.2 ⟨r, hr, by rw [hk]; rfl⟩
  have hlive : liveKey k = true := rowKey_live hk
  refine ⟨_, List.mem_map.2 ⟨k, (List.mem_dedup).2 hmem, rfl⟩, ?_⟩
  exact rowKey_mk k hlive _ _ _

/-- Accumulated total count over the stored typed partial tables. -/
def aggTotal (st : PipeState) : Nat :=
  ((st.aggs.filterMap id).map totalCount).sum

/-- Number of batch records whose group key survives the grouping. -/
def gcount (batch : List NormalizedRecord) : Nat :=
  batch.countP (fun r => (groupKey r).isSome)

/-- All batch records carry a numeric `response_time_ms` and a hashable
endpoint, so aggregating any batch containing them cannot raise. -/
def batchOK (batch : List NormalizedRecord) : Prop :=
  ∀ r ∈ batch, r.response_time_ms.isNum = true ∧ (JValue.hashable r.endpoint) = true

/-- All rows stored in typed partial tables have a live key. -/
def aggsLive (st : PipeState) : Prop :=
  ∀ p ∈ st.aggs.filterMap id, ∀ row ∈ p, (rowKey row).isSome = true

/-- No stored frame is a handler-produced column-less empty. -/
def aggsSome (st : PipeState) : Prop :=
  ∀ p ∈ st.aggs, p.isSome = true

lemma filterMap_id_append (l : List (Option (List AggRow)))
    (x : Option (List AggRow)) :
    (l ++ [x]).filterMap id = l.filterMap id ++ x.toList := by
  rw [List.filterMap_append]
  cases x <;> rfl

lemma aggOK_of_batchOK {batch : List NormalizedRecord} (hb : batchOK batch) :
    aggOK batch :=
  aggOK_of_ok (fun r hr => (hb r hr).2) (fun r hr => (hb r hr).1)

lemma aggregateResult_of_batchOK {batch : List NormalizedRecord}
    (hb : batchOK batch) (hne : batch ≠ []) :
    aggregateResult batch = some (aggregate_by_hour_endpoint batch) := by
  unfold aggregateResult
  rw [if_neg (by simpa [List.isEmpty_iff] using hne),
    if_pos (aggOK_of_batchOK hb)]

lemma clean_fields {ph : String → Option String} {fields : List (String × JValue)}
    {r : NormalizedRecord} (h : clean_log_record ph fields = some r) :
    r.endpoint = jget fields "endpoint" (.jStr "unknown") ∧
    r.response_time_ms = jget fields "response_time_ms" (.jInt 0) ∧
    r.status_code = jget fields "status_code" (.jInt 0) := by
  unfold clean_log_record at h
  cases h1 : hourOf ph (jget fields "timestamp" (.jStr "")) <;> rw [h1] at h
  · exact absurd h (by simp)
  · cases h2 : statusTest (jget fields "status_code" (.jInt 0)) <;> rw [h2] at h
    · exact absurd h (by simp)
    · cases Option.some.inj h
      exact ⟨rfl, rfl, rfl⟩

lemma flushIfFull_spec (cs : Nat) (st : PipeState) (hb : batchOK st.batch)
    (hl : aggsLive st) :
    batchOK (flushIfFull cs st).batch ∧ aggsLive (flushIfFull cs st) ∧
    aggTotal (flushIfFull cs st) + gcount (flushIfFull cs st).batch
      = aggTotal st + gcount st.batch ∧
    (flushIfFull cs st).total_records = st.total_records ∧
    (flushIfFull cs st).filtered_records = st.filtered_records ∧
    (flushIfFull cs st).error_records = st.error_records := by
  unfold flushIfFull
  by_cases hcs : cs ≤ st.batch.length
  · rw [if_pos hcs]
    by_cases hemp : st.batch = []
    · have hres : aggregateResult st.batch = none := by
        rw [hemp]
        rfl
      refine ⟨?_, ?_, ?_, rfl, rfl, rfl⟩
      · intro r hr
        exact absurd hr (List.not_mem_nil r)
      · intro p hp row hrow
        have hp2 : p ∈ (st.aggs ++ [aggregateResult st.batch]).filterMap id := hp
        rw [filterMap_id_append, hres] at hp2
        exact hl p (by simpa using hp2) row hrow
      · show ((((st.aggs ++ [aggregateResult st.batch]).filterMap id).map
            totalCount).sum) + gcount [] = aggTotal st + gcount st.batch
        rw [filterMap_id_append, hres, hemp]
        simp [aggTotal, gcount]
    · have hres := aggregateResult_of_batchOK hb hemp
      refine ⟨?_, ?_, ?_, rfl, rfl, rfl⟩
      · intro r hr
        exact absurd hr (List.not_mem_nil r)
      · intro p hp row hrow
        have hp2 : p ∈ (st.aggs ++ [aggregateResult st.batch]).filterMap id := hp
        rw [filterMap_id_append, hres] at hp2
        rcases List.mem_append.1 hp2 with h1 | h2
        · exact hl p h1 row hrow
        · have hpe : p = aggregate_by_hour_endpoint st.batch := by
            simpa using h2
          rw [hpe] at hrow
          exact aggregate_rows_live hrow
      · show ((((st.aggs ++ [aggregateResult st.batch]).filterMap id).map
            totalCount).sum) + gcount [] = aggTotal st + gcount st.batch
        rw [filterMap_id_append, hres]
        show ((st.aggs.filterMap id ++ [aggregate_by_hour_endpoint st.batch]).map
            totalCount).sum + gcount [] = aggTotal st + gcount st.batch
        rw [List.map_append, List.sum_append]
        simp only [List.map_cons, List.map_nil, List.sum_cons, List.sum_nil]
        rw [totalCount_aggregate (aggOK_of_batchOK hb)]
        unfold aggTotal gcount
        simp
  · rw [if_neg hcs]
    exact ⟨hb, hl, rfl, rfl, rfl, rfl⟩

lemma flushIfFull_aggsSome {cs : Nat} {st : PipeState} (hcs : 0 < cs)
    (hb : batchOK st.batch) (hs : aggsSome st) : aggsSome (flushIfFull cs st) := by
  unfold flushIfFull
  by_cases hflush : cs ≤ st.batch.length
  · rw [if_pos hflush]
    intro p hp
    rcases List.mem_append.1 hp with h1 | h2
    · exact hs p h1
    · have hpe : p = aggregateResult st.batch := by
        simpa using h2
      subst hpe
      have hne : st.batch ≠ [] := by
        intro h0
        rw [h0] at hflush
        simp at hflush
        omega
      rw [aggregateResult_of_batchOK hb hne]
      rfl
  · rw [if_neg hflush]
    exact hs

lemma processLine_spec {ph : String → Option String} {cs : Nat} {st st' : PipeState}
    {l : RawLine} (h : processLine ph cs st l = some st')
    (hb : batchOK st.batch) (hl : aggsLive st) (hnl : numericLine l = true)
    (hhl : hashableLine l = true) :
    batchOK st'.batch ∧ aggsLive st' ∧
    aggTotal st' + gcount st'.batch
      = aggTotal st + gcount st.batch + (if contributes ph l then 1 else 0) ∧
    st'.total_records = st.total_records + (if isObjL l then 1 else 0) ∧
    st'.filtered_records = st.filtered_records + (if passesFilter l then 1 else 0) ∧
    st'.error_records = st.error_records + (if isMalformedL l then 1 else 0) := by
  cases l with
  | blank =>
    cases Option.some.inj h
    simp [contributes, isObjL, passesFilter, isMalformedL, hb, hl]
  | malformed =>
    cases Option.some.inj h
    refine ⟨hb, hl, ?_, ?_, ?_, ?_⟩ <;>
      simp [contributes, isObjL, passesFilter, isMalformedL, aggTotal, gcount]
  | jsonNonObj => exact absurd h (by simp [processLine])
  | jsonObj fields =>
    rw [processLine] at h
    cases hst : statusTest (jget fields "status_code" (.jInt 0)) <;> rw [hst] at h
    · exact absurd h (by simp)
    case some b =>
      cases b with
      | false =>
        cases Option.some.inj h
        have hflush := flushIfFull_spec cs
          { st with total_records := st.total_records + 1 } hb hl
        refine ⟨hflush.1, hflush.2.1, ?_, ?_, ?_, ?_⟩
        · rw [hflush.2.2.1]
          simp [contributes, hst, aggTotal, gcount]
        · rw [hflush.2.2.2.1]
          simp [isObjL]
        · rw [hflush.2.2.2.2.1]
          simp [passesFilter, hst]
        · rw [hflush.2.2.2.2.2]
          simp [isMalformedL]
      | true =>
        cases hclean : clean_log_record ph fields <;> rw [hclean] at h
        · cases Option.some.inj h
          have hflush := flushIfFull_spec cs
            { st with total_records := st.total_records + 1,
                      filtered_records := st.filtered_records + 1 } hb hl
          refine ⟨hflush.1, hflush.2.1, ?_, ?_, ?_, ?_⟩
          · rw [hflush.2.2.1]
            simp [contributes, hst, hclean, aggTotal, gcount]
          · rw [hflush.2.2.2.1]
            simp [isObjL]
          · rw [hflush.2.2.2.2.1]
            simp [passesFilter, hst]
          · rw [hflush.2.2.2.2.2]
            simp [isMalformedL]
        case some r =>
          cases Option.some.inj h
          have hbn : batchOK (st.batch ++ [r]) := by
            intro x hx
            rcases List.mem_append.1 hx with h1 | h2
            · exact hb x h1
            · have hxr : x = r := by simpa using h2
              subst hxr
              constructor
              · rw [(clean_fields hclean).2.1]
                simpa [numericLine] using hnl
              · rw [(clean_fields hclean).1]
                simpa [hashableLine] using hhl
          have hflush := flushIfFull_spec cs
            { st with total_records := st.total_records + 1,
                      filtered_records := st.filtered_records + 1,
                      batch := st.batch ++ [r] } hbn hl
          refine ⟨hflush.1, hflush.2.1, ?_, ?_, ?_, ?_⟩
          · rw [hflush.2.2.1]
            show aggTotal st + (st.batch ++ [r]).countP (fun x => (groupKey x).isSome)
              = aggTotal st + gcount st.batch + _
            rw [List.countP_append]
            simp only [contributes, hst, hclean]
            unfold gcount
            by_cases hgk : (groupKey r).isSome = true <;> simp [hgk] <;> omega
          · rw [hflush.2.2.2.1]
            simp [isObjL]
          · rw [hflush.2.2.2.2.1]
            simp [passesFilter, hst]
          · rw [hflush.2.2.2.2.2]
            simp [isMalformedL]

lemma foldBind_none {σ α : Type} (f : σ → α → Option σ) (ls : List α) :
    ls.foldl (fun acc l => acc.bind (fun s => f s l)) none = none := by
  induction ls with
  | nil => rfl
  | cons a t ih => simpa using ih

lemma runFrom_cons (ph : String → Option String) (cs : Nat) (st : PipeState)
    (l : RawLine) (ls : List RawLine) :
    runFrom ph cs st (l :: ls)
      = match processLine ph cs st l with
        | some st1 => runFrom ph cs st1 ls
        | none => none := by
  unfold runFrom
  rw [List.foldl_cons]
  cases hpl : processLine ph cs st l with
  | none =>
    have hinit : (some st).bind (fun s => processLine ph cs s l) = none := by
      rw [← hpl]
      rfl
    rw [hinit]
    exact foldBind_none _ ls
  | some st1 =>
    have hinit : (some st).bind (fun s => processLine ph cs s l) = some st1 := by
      rw [← hpl]
      rfl
    rw [hinit]

/-- Invariant of the single-process line loop over any successful run: the
counters count exactly the line classes, and the records accounted across the
stored partial tables plus the pending batch are exactly the contributing
lines. -/
lemma runFrom_spec {ph : String → Option String} {cs : Nat}
    {lines : List RawLine} {st st' : PipeState}
    (h : runFrom ph cs st lines = some st')
    (hb : batchOK st.batch) (hl : aggsLive st)
    (hnum : ∀ l ∈ lines, numericLine l = true)
    (hhash : ∀ l ∈ lines, hashableLine l = true) :
    batchOK st'.batch ∧ aggsLive st' ∧
    aggTotal st' + gcount st'.batch
      = aggTotal st + gcount st.batch + lines.countP (contributes ph) ∧
    st'.total_records = st.total_records + lines.countP isObjL ∧
    st'.filtered_records = st.filtered_records + lines.countP passesFilter ∧
    st'.error_records = st.error_records + lines.countP isMalformedL := by
  induction lines generalizing st with
  | nil =>
    cases Option.some.inj h
    simp [hb, hl]
  | cons l ls ih =>
    rw [runFrom_cons] at h
    cases hpl : processLine ph cs st l with
    | none => rw [hpl] at h; exact absurd h (by simp)
    | some st1 =>
      rw [hpl] at h
      have hstep := processLine_spec hpl hb hl (hnum l (List.mem_cons_self l ls))
        (hhash l (List.mem_cons_self l ls))
      have hrest := ih h hstep.1 hstep.2.1
        (fun x hx => hnum x (List.mem_cons_of_mem l hx))
        (fun x hx => hhash x (List.mem_cons_of_mem l hx))
      refine ⟨hrest.1, hrest.2.1, ?_, ?_, ?_, ?_⟩
      · rw [List.countP_cons]
        have h1 := hstep.2.2.1
        have h2 := hrest.2.2.1
        by_cases hc : contributes ph l = true <;> simp [hc] at h1 ⊢ <;> omega
      · rw [List.countP_cons]
        have h1 := hstep.2.2.2.1
        have h2 := hrest.2.2.2.1
        by_cases hc : isObjL l = true <;> simp [hc] at h1 ⊢ <;> omega
      · rw [List.countP_cons]
        have h1 := hstep.2.2.2.2.1
        have h2 := hrest.2.2.2.2.1
        by_cases hc : passesFilter l = true <;> simp [hc] at h1 ⊢ <;> omega
      · rw [List.countP_cons]
        have h1 := hstep.2.2.2.2.2
        have h2 := hrest.2.2.2.2.2
        by_cases hc : isMalformedL l = true <;> simp [hc] at h1 ⊢ <;> omega

lemma processLine_none_iff {ph : String → Option String} {cs : Nat}
    {st : PipeState} {l : RawLine} :
    processLine ph cs st l = none ↔ lineOk l = false := by
  cases l with
  | blank => simp [processLine, lineOk]
  | malformed => simp [processLine, lineOk]
  | jsonNonObj => simp [processLine, lineOk]
  | jsonObj fields =>
    rw [processLine]
    cases hst : statusTest (jget fields "status_code" (.jInt 0)) with
    | none => simp [lineOk, hst]
    | some b =>
      cases b with
      | false => simp [lineOk, hst]
      | true =>
        cases hclean : clean_log_record ph fields <;> simp [lineOk, hst, hclean]

lemma runFrom_none_of_bad {ph : String → Option String} {cs : Nat}
    {lines : List RawLine} {l : RawLine} (hl : l ∈ lines)
    (hbad : lineOk l = false) (st : PipeState) :
    runFrom ph cs st lines = none := by
  induction lines generalizing st with
  | nil => exact absurd hl (List.not_mem_nil l)
  | cons a t ih =>
    rw [runFrom_cons]
    rcases List.mem_cons.1 hl with h1 | h2
    · subst h1
      rw [processLine_none_iff.2 hbad]
    · cases hpl : processLine ph cs st a with
      | none => rfl
      | some st1 => exact ih h2 st1

lemma runFrom_isSome_of_allOk {ph : String → Option String} {cs : Nat}
    {lines : List RawLine} (hok : ∀ l ∈ lines, lineOk l = true) (st : PipeState) :
    ∃ st', runFrom ph cs st lines = some st' := by
  induction lines generalizing st with
  | nil => exact ⟨st, rfl⟩
  | cons a t ih =>
    rw [runFrom_cons]
    cases hpl : processLine ph cs st a with
    | none =>
      have := processLine_none_iff.1 hpl
      rw [hok a (List.mem_cons_self a t)] at this
      exact absurd this (by simp)
    | some st1 => exact ih (fun x hx => hok x (List.mem_cons_of_mem a hx)) st1

/-- `finalFlush` preserves the invariant and moves the pending batch into the
stored tables without changing the accounted totals or the counters. -/
lemma finalFlush_spec {st : PipeState} (hb : batchOK st.batch) (hl : aggsLive st) :
    aggsLive (finalFlush st) ∧
    aggTotal (finalFlush st) = aggTotal st + gcount st.batch ∧
    (finalFlush st).total_records = st.total_records ∧
    (finalFlush st).filtered_records = st.filtered_records ∧
    (finalFlush st).error_records = st.error_records := by
  unfold finalFlush
  by_cases he : st.batch.isEmpty
  · rw [if_pos he]
    have : st.batch = [] := List.isEmpty_iff.1 he
    refine ⟨hl, ?_, rfl, rfl, rfl⟩
    rw [this]
    simp [gcount]
  · rw [if_neg he]
    have hne : st.batch ≠ [] := by
      intro h0
      rw [h0] at he
      simp at he
    have hres := aggregateResult_of_batchOK hb hne
    refine ⟨?_, ?_, rfl, rfl, rfl⟩
    · intro p hp row hrow
      have hp2 : p ∈ (st.aggs ++ [aggregateResult st.batch]).filterMap id := hp
      rw [filterMap_id_append, hres] at hp2
      rcases List.mem_append.1 hp2 with h1 | h2
      · exact hl p h1 row hrow
      · have hpe : p = aggregate_by_hour_endpoint st.batch := by
          simpa using h2
        rw [hpe] at hrow
        exact aggregate_rows_live hrow
    · show ((((st.aggs ++ [aggregateResult st.batch]).filterMap id).map
          totalCount).sum) = aggTotal st + gcount st.batch
      rw [filterMap_id_append, hres]
      show ((st.aggs.filterMap id ++ [aggregate_by_hour_endpoint st.batch]).map
          totalCount).sum = aggTotal st + gcount st.batch
      rw [List.map_append, List.sum_append]
      simp only [List.map_cons, List.map_nil, List.sum_cons, List.sum_nil]
      rw [totalCount_aggregate (aggOK_of_batchOK hb)]
      unfold aggTotal gcount
      simp

lemma finalFlush_aggsSome {st : PipeState} (hb : batchOK st.batch)
    (hs : aggsSome st) : aggsSome (finalFlush st) := by
  unfold finalFlush
  by_cases he : st.batch.isEmpty
  · rw [if_pos he]
    exact hs
  · rw [if_neg he]
    intro p hp
    rcases List.mem_append.1 hp with h1 | h2
    · exact hs p h1
    · have hpe : p = aggregateResult st.batch := by
        simpa using h2
      subst hpe
      have hne : st.batch ≠ [] := by
        intro h0
        rw [h0] at he
        simp at he
      rw [aggregateResult_of_batchOK hb hne]
      rfl

lemma consolidateBatches_eq_some {parts : List (Option (List AggRow))}
    {final : List AggRow} (h : consolidateBatches parts = some final) :
    final = mergeRows (parts.filterMap id).flatten := by
  unfold consolidateBatches at h
  by_cases he : parts.isEmpty
  · rw [if_pos he] at h
    have hp : parts = [] := List.isEmpty_iff.1 he
    cases Option.some.inj h
    rw [hp]
    rfl
  · rw [if_neg he] at h
    by_cases ha : parts.all (fun p => p.isNone)
    · rw [if_pos ha] at h
      exact absurd h (by simp)
    · rw [if_neg ha] at h
      exact (Option.some.inj h).symm

lemma consolidateBatches_of_aggsSome {parts : List (Option (List AggRow))}
    (hs : ∀ p ∈ parts, p.isSome = true) :
    consolidateBatches parts = some (mergeRows (parts.filterMap id).flatten) := by
  unfold consolidateBatches
  by_cases he : parts.isEmpty
  · rw [if_pos he]
    have hp : parts = [] := List.isEmpty_iff.1 he
    rw [hp]
    rfl
  · rw [if_neg he]
    have hp : parts ≠ [] := by
      intro h0
      rw [h0] at he
      simp at he
    rw [if_neg ?_]
    intro hall
    rcases List.exists_mem_of_ne_nil parts hp with ⟨p, hpmem⟩
    have h1 := hs p hpmem
    have h2 := List.all_eq_true.1 hall p hpmem
    cases p
    · exact absurd h1 (by simp)
    · exact absurd h2 (by simp)

lemma processLine_aggsSome {ph : String → Option String} {cs : Nat}
    {st st' : PipeState} {l : RawLine} (hcs : 0 < cs)
    (h : processLine ph cs st l = some st')
    (hb : batchOK st.batch) (hnl : numericLine l = true)
    (hhl : hashableLine l = true) (hs : aggsSome st) : aggsSome st' := by
  cases l with
  | blank =>
    cases Option.some.inj h
    exact hs
  | malformed =>
    cases Option.some.inj h
    exact hs
  | jsonNonObj => exact absurd h (by simp [processLine])
  | jsonObj fields =>
    rw [processLine] at h
    cases hst : statusTest (jget fields "status_code" (.jInt 0)) <;> rw [hst] at h
    · exact absurd h (by simp)
    case some b =>
      cases b with
      | false =>
        cases Option.some.inj h
        exact flushIfFull_aggsSome hcs hb hs
      | true =>
        cases hclean : clean_log_record ph fields <;> rw [hclean] at h
        · cases Option.some.inj h
          exact flushIfFull_aggsSome hcs hb hs
        case some r =>
          cases Option.some.inj h
          have hbn : batchOK (st.batch ++ [r]) := by
            intro x hx
            rcases List.mem_append.1 hx with h1 | h2
            · exact hb x h1
            · have hxr : x = r := by simpa using h2
              subst hxr
              constructor
              · rw [(clean_fields hclean).2.1]
                simpa [numericLine] using hnl
              · rw [(clean_fields hclean).1]
                simpa [hashableLine] using hhl
          exact flushIfFull_aggsSome hcs hbn hs

lemma runFrom_aggsSome {ph : String → Option String} {cs : Nat}
    {lines : List RawLine} {st st' : PipeState} (hcs : 0 < cs)
    (h : runFrom ph cs st lines = some st')
    (hb : batchOK st.batch) (hl : aggsLive st) (hs : aggsSome st)
    (hnum : ∀ l ∈ lines, numericLine l = true)
    (hhash : ∀ l ∈ lines, hashableLine l = true) :
    aggsSome st' := by
  induction lines generalizing st with
  | nil =>
    cases Option.some.inj h
    exact hs
  | cons l ls ih =>
    rw [runFrom_cons] at h
    cases hpl : processLine ph cs st l with
    | none => rw [hpl] at h; exact absurd h (by simp)
    | some st1 =>
      rw [hpl] at h
      have hstep := processLine_spec hpl hb hl (hnum l (List.mem_cons_self l ls))
        (hhash l (List.mem_cons_self l ls))
      have hsome1 := processLine_aggsSome hcs hpl hb
        (hnum l (List.mem_cons_self l ls)) (hhash l (List.mem_cons_self l ls)) hs
      exact ih h hstep.1 hstep.2.1 hsome1
        (fun x hx => hnum x (List.mem_cons_of_mem l hx))
        (fun x hx => hhash x (List.mem_cons_of_mem l hx))

/-- When every line survives the per-line handler and its cleaned record is
aggregable (numeric response, hashable endpoint), and the chunk size is
positive, the whole streaming run succeeds: every stored frame is a typed
table, so the final `pd.concat` + `groupby` cannot raise `KeyError`. -/
lemma processFile_total {ph : String → Option String} {cs : Nat}
    {lines : List RawLine} (hcs : 0 < cs)
    (hok : ∀ l ∈ lines,
      lineOk l = true ∧ numericLine l = true ∧ hashableLine l = true) :
    ∃ st final, processFile ph cs lines = some (st, final) := by
  rcases runFrom_isSome_of_allOk (fun l hl => (hok l hl).1) initState with ⟨st', hst'⟩
  have hb0 : batchOK initState.batch := by
    intro r hr
    exact absurd hr (List.not_mem_nil r)
  have hl0 : aggsLive initState := by
    intro p hp
    exact absurd hp (List.not_mem_nil p)
  have hs0 : aggsSome initState := by
    intro p hp
    exact absurd hp (List.not_mem_nil p)
  have hspec := runFrom_spec hst' hb0 hl0
    (fun l hl => (hok l hl).2.1) (fun l hl => (hok l hl).2.2)
  have hsome := runFrom_aggsSome hcs hst' hb0 hl0 hs0
    (fun l hl => (hok l hl).2.1) (fun l hl => (hok l hl).2.2)
  have hffsome := finalFlush_aggsSome hspec.1 hsome
  have hcb := consolidateBatches_of_aggsSome hffsome
  refine ⟨finalFlush st',
    mergeRows (((finalFlush st').aggs.filterMap id).flatten), ?_⟩
  unfold processFile runLines
  rw [show runFrom ph cs initState lines = some st' from hst']
  show (consolidateBatches (finalFlush st').aggs).map
      (fun f => (finalFlush st', f)) = _
  rw [hcb]
  rfl

/-- Total count of the merged final table of a successful single-process run:
every contributing line is accounted exactly once. -/
lemma processFile_spec {ph : String → Option String} {cs : Nat}
    {lines : List RawLine} {st : PipeState} {final : List AggRow}
    (h : processFile ph cs lines = some (st, final))
    (hnum : ∀ l ∈ lines, numericLine l = true)
    (hhash : ∀ l ∈ lines, hashableLine l = true) :
    totalCount final = lines.countP (contributes ph) ∧
    st.total_records = lines.countP isObjL ∧
    st.filtered_records = lines.countP passesFilter ∧
    st.error_records = lines.countP isMalformedL := by
  unfold processFile at h
  cases hrun : runLines ph cs lines with
  | none => rw [hrun] at h; exact absurd h (by simp)
  | some st0 =>
    rw [hrun] at h
    have h2 : (consolidateBatches (finalFlush st0).aggs).map
        (fun f => (finalFlush st0, f)) = some (st, final) := h
    cases hcb : consolidateBatches (finalFlush st0).aggs with
    | none => rw [hcb] at h2; exact absurd h2 (by simp)
    | some fin =>
      rw [hcb] at h2
      simp only [Option.map_some'] at h2
      have hpair := Option.some.inj h2
      have hst : st = finalFlush st0 := (congrArg Prod.fst hpair).symm
      have hfin0 : final = fin := (congrArg Prod.snd hpair).symm
      have hfin : final
          = mergeRows (((finalFlush st0).aggs.filterMap id).flatten) := by
        rw [hfin0]
        exact consolidateBatches_eq_some hcb
      have hinit_b : batchOK initState.batch := by
        intro r hr
        exact absurd hr (List.not_mem_nil r)
      have hinit_l : aggsLive initState := by
        intro p hp
        exact absurd hp (List.not_mem_nil p)
      have hrs := runFrom_spec hrun hinit_b hinit_l hnum hhash
      have hff := finalFlush_spec hrs.1 hrs.2.1
      have hlive : ∀ row ∈ ((finalFlush st0).aggs.filterMap id).flatten,
          (rowKey row).isSome = true := by
        intro row hrow
        rcases List.mem_flatten.1 hrow with ⟨p, hp, hrp⟩
        exact hff.1 p hp row hrp
      constructor
      · rw [hfin, totalCount_mergeRows hlive, totalCount_flatten]
        show aggTotal (finalFlush st0) = _
        rw [hff.2.1]
        have := hrs.2.2.1
        simp only [aggTotal, gcount, initState] at this ⊢
        simp at this
        omega
      constructor
      · rw [hst, hff.2.2.1]
        have := hrs.2.2.2.1
        simpa [initState] using this
      constructor
      · rw [hst, hff.2.2.2.1]
        have := hrs.2.2.2.2.1
        simpa [initState] using this
      · rw [hst, hff.2.2.2.2]
        have := hrs.2.2.2.2.2
        simpa [initState] using this

/-- The worker's line fold from an arbitrary accumulator. -/
def chunkFold (ph : String → Option String) (a : ChunkAcc) (lines : List RawLine) :
    Option ChunkAcc :=
  lines.foldl (fun acc l => acc.bind (fun x => chunkLine ph x l)) (some a)

/-- The worker's initial accumulator. -/
def chunkInit : ChunkAcc :=
  { total_records := 0, filtered_records := 0, error_records := 0, recs := [] }

lemma process_chunk_eq (ph : String → Option String) (lines : List RawLine) :
    process_chunk_multiprocessing ph lines
      = match chunkFold ph chunkInit lines with
        | some a => ChunkResult.success a.total_records a.filtered_records
            a.error_records (aggregate_by_hour_endpoint a.recs)
        | none => ChunkResult.failure := rfl

lemma chunkFold_cons (ph : String → Option String) (a : ChunkAcc)
    (l : RawLine) (ls : List RawLine) :
    chunkFold ph a (l :: ls)
      = match chunkLine ph a l with
        | some a1 => chunkFold ph a1 ls
        | none => none := by
  unfold chunkFold
  rw [List.foldl_cons]
  cases hpl : chunkLine ph a l with
  | none =>
    have hinit : (some a).bind (fun x => chunkLine ph x l) = none := by
      rw [← hpl]
      rfl
    rw [hinit]
    exact foldBind_none _ ls
  | some a1 =>
    have hinit : (some a).bind (fun x => chunkLine ph x l) = some a1 := by
      rw [← hpl]
      rfl
    rw [hinit]

lemma chunkLine_spec {ph : String → Option String} {a a' : ChunkAcc} {l : RawLine}
    (h : chunkLine ph a l = some a')
    (hb : batchOK a.recs) (hnl : numericLine l = true)
    (hhl : hashableLine l = true) :
    batchOK a'.recs ∧
    gcount a'.recs = gcount a.recs + (if contributes ph l then 1 else 0) ∧
    a'.total_records = a.total_records + (if isObjL l then 1 else 0) ∧
    a'.filtered_records = a.filtered_records + (if passesFilter l then 1 else 0) ∧
    a'.error_records = a.error_records + (if isMalformedL l then 1 else 0) := by
  cases l with
  | blank =>
    cases Option.some.inj h
    simp [contributes, isObjL, passesFilter, isMalformedL, hb]
  | malformed =>
    cases Option.some.inj h
    refine ⟨hb, ?_, ?_, ?_, ?_⟩ <;>
      simp [contributes, isObjL, passesFilter, isMalformedL, gcount]
  | jsonNonObj => exact absurd h (by simp [chunkLine])
  | jsonObj fields =>
    rw [chunkLine] at h
    cases hst : statusTest (jget fields "status_code" (.jInt 0)) <;> rw [hst] at h
    · exact absurd h (by simp)
    case some b =>
      cases b with
      | false =>
        cases Option.some.inj h
        refine ⟨hb, ?_, ?_, ?_, ?_⟩ <;>
          simp [contributes, hst, isObjL, passesFilter, isMalformedL, gcount]
      | true =>
        cases hclean : clean_log_record ph fields <;> rw [hclean] at h
        · cases Option.some.inj h
          refine ⟨hb, ?_, ?_, ?_, ?_⟩ <;>
            simp [contributes, hst, hclean, isObjL, passesFilter, isMalformedL, gcount]
        case some r =>
          cases Option.some.inj h
          refine ⟨?_, ?_, ?_, ?_, ?_⟩
          · intro x hx
            rcases List.mem_append.1 hx with h1 | h2
            · exact hb x h1
            · have hxr : x = r := by simpa using h2
              subst hxr
              constructor
              · rw [(clean_fields hclean).2.1]
                simpa [numericLine] using hnl
              · rw [(clean_fields hclean).1]
                simpa [hashableLine] using hhl
          · show (a.recs ++ [r]).countP (fun x => (groupKey x).isSome) = _
            rw [List.countP_append]
            simp only [contributes, hst, hclean]
            unfold gcount
            by_cases hgk : (groupKey r).isSome = true <;> simp [hgk] <;> omega
          · simp [isObjL]
          · simp [passesFilter, hst]
          · simp [isMalformedL]

lemma chunkFold_spec {ph : String → Option String} {lines : List RawLine}
    {a a' : ChunkAcc} (h : chunkFold ph a lines = some a')
    (hb : batchOK a.recs) (hnum : ∀ l ∈ lines, numericLine l = true)
    (hhash : ∀ l ∈ lines, hashableLine l = true) :
    batchOK a'.recs ∧
    gcount a'.recs = gcount a.recs + lines.countP (contributes ph) ∧
    a'.total_records = a.total_records + lines.countP isObjL ∧
    a'.filtered_records = a.filtered_records + lines.countP passesFilter ∧
    a'.error_records = a.error_records + lines.countP isMalformedL := by
  induction lines generalizing a with
  | nil =>
    cases Option.some.inj h
    simp [hb]
  | cons l ls ih =>
    rw [chunkFold_cons] at h
    cases hpl : chunkLine ph a l with
    | none => rw [hpl] at h; exact absurd h (by simp)
    | some a1 =>
      rw [hpl] at h
      have hstep := chunkLine_spec hpl hb (hnum l (List.mem_cons_self l ls))
        (hhash l (List.mem_cons_self l ls))
      have hrest := ih h hstep.1 (fun x hx => hnum x (List.mem_cons_of_mem l hx))
        (fun x hx => hhash x (List.mem_cons_of_mem l hx))
      refine ⟨hrest.1, ?_, ?_, ?_, ?_⟩
      · rw [List.countP_cons]
        have h1 := hstep.2.1
        have h2 := hrest.2.1
        by_cases hc : contributes ph l = true <;> simp [hc] at h1 ⊢ <;> omega
      · rw [List.countP_cons]
        have h1 := hstep.2.2.1
        have h2 := hrest.2.2.1
        by_cases hc : isObjL l = true <;> simp [hc] at h1 ⊢ <;> omega
      · rw [List.countP_cons]
        have h1 := hstep.2.2.2.1
        have h2 := hrest.2.2.2.1
        by_cases hc : passesFilter l = true <;> simp [hc] at h1 ⊢ <;> omega
      · rw [List.countP_cons]
        have h1 := hstep.2.2.2.2
        have h2 := hrest.2.2.2.2
        by_cases hc : isMalformedL l = true <;> simp [hc] at h1 ⊢ <;> omega

lemma chunkLine_none_iff {ph : String → Option String} {a : ChunkAcc} {l : RawLine} :
    chunkLine ph a l = none ↔ lineOk l = false := by
  cases l with
  | blank => simp [chunkLine, lineOk]
  | malformed => simp [chunkLine, lineOk]
  | jsonNonObj => simp [chunkLine, lineOk]
  | jsonObj fields =>
    rw [chunkLine]
    cases hst : statusTest (jget fields "status_code" (.jInt 0)) with
    | none => simp [lineOk, hst]
    | some b =>
      cases b with
      | false => simp [lineOk, hst]
      | true =>
        cases hclean : clean_log_record ph fields <;> simp [lineOk, hst, hclean]

lemma chunkFold_none_of_bad {ph : String → Option String} {lines : List RawLine}
    {l : RawLine} (hl : l ∈ lines) (hbad : lineOk l = false) (a : ChunkAcc) :
    chunkFold ph a lines = none := by
  induction lines generalizing a with
  | nil => exact absurd hl (List.not_mem_nil l)
  | cons x t ih =>
    rw [chunkFold_cons]
    rcases List.mem_cons.1 hl with h1 | h2
    · subst h1
      rw [chunkLine_none_iff.2 hbad]
    · cases hpl : chunkLine ph a x with
      | none => rfl
      | some a1 => exact ih h2 a1

lemma chunkFold_isSome_of_allOk {ph : String → Option String} {lines : List RawLine}
    (hok : ∀ l ∈ lines, lineOk l = true) (a : ChunkAcc) :
    ∃ a', chunkFold ph a lines = some a' := by
  induction lines generalizing a with
  | nil => exact ⟨a, rfl⟩
  | cons x t ih =>
    rw [chunkFold_cons]
    cases hpl : chunkLine ph a x with
    | none =>
      have := chunkLine_none_iff.1 hpl
      rw [hok x (List.mem_cons_self x t)] at this
      exact absurd this (by simp)
    | some a1 => exact ih (fun y hy => hok y (List.mem_cons_of_mem x hy)) a1

lemma splitLoop_flatten {α : Type} (k : Nat) (acc : List α) (xs : List α) :
    (splitLoop k acc xs).flatten = acc ++ xs := by
  induction xs generalizing acc with
  | nil =>
    unfold splitLoop
    by_cases he : acc.isEmpty
    · rw [if_pos he, List.isEmpty_iff.1 he]
      rfl
    · rw [if_neg he]
      simp
  | cons x t ih =>
    unfold splitLoop
    by_cases hlen : k ≤ (acc ++ [x]).length
    · rw [if_pos hlen]
      rw [List.flatten_cons, ih []]
      simp
    · rw [if_neg hlen, ih (acc ++ [x])]
      simp

lemma splitLoop_length_le {α : Type} {k : Nat} (hk : 0 < k) (xs : List α)
    (acc : List α) (hacc : acc.length < k) :
    ∀ c ∈ splitLoop k acc xs, c.length ≤ k := by
  induction xs generalizing acc with
  | nil =>
    intro c hc
    unfold splitLoop at hc
    by_cases he : acc.isEmpty
    · rw [if_pos he] at hc
      exact absurd hc (List.not_mem_nil c)
    · rw [if_neg he] at hc
      have : c = acc := by simpa using hc
      subst this
      omega
  | cons x t ih =>
    intro c hc
    unfold splitLoop at hc
    by_cases hlen : k ≤ (acc ++ [x]).length
    · rw [if_pos hlen] at hc
      rcases List.mem_cons.1 hc with h1 | h2
      · subst h1
        simp only [List.length_append, List.length_cons, List.length_nil] at hlen ⊢
        omega
      · exact ih [] (by simpa using hk) c h2
    · rw [if_neg hlen] at hc
      have hlt : (acc ++ [x]).length < k := Nat.lt_of_not_le hlen
      exact ih (acc ++ [x]) hlt c hc

lemma splitLoop_nil {α : Type} (k : Nat) (acc : List α) :
    splitLoop k acc [] = if acc.isEmpty then [] else [acc] := rfl

lemma splitLoop_cons {α : Type} (k : Nat) (acc : List α) (x : α) (xs : List α) :
    splitLoop k acc (x :: xs)
      = if k ≤ (acc ++ [x]).length then (acc ++ [x]) :: splitLoop k [] xs
        else splitLoop k (acc ++ [x]) xs := rfl

lemma splitLoop_flush {α : Type} {k : Nat} {l1 : List α} (h1 : l1 ≠ [])
    (acc : List α) (hlen : (acc ++ l1).length = k) (xs : List α) :
    splitLoop k acc (l1 ++ xs) = (acc ++ l1) :: splitLoop k [] xs := by
  induction l1 generalizing acc with
  | nil => exact absurd rfl h1
  | cons a t ih =>
    cases ht : t with
    | nil =>
      subst ht
      rw [List.cons_append, List.nil_append, splitLoop_cons, if_pos (by
        simp only [List.length_append, List.length_cons, List.length_nil] at hlen ⊢
        omega)]
    | cons b t2 =>
      subst ht
      rw [List.cons_append, splitLoop_cons, if_neg (by
        simp only [List.length_append, List.length_cons, List.length_nil] at hlen ⊢
        omega)]
      have hrec := ih (List.cons_ne_nil b t2) (acc ++ [a]) (by
        simp only [List.length_append, List.length_cons, List.length_nil] at hlen ⊢
        omega)
      rw [hrec]
      simp

lemma splitLoop_small {α : Type} {k : Nat} (xs : List α) (acc : List α)
    (hne : acc ++ xs ≠ []) (hlen : (acc ++ xs).length < k) :
    splitLoop k acc xs = [acc ++ xs] := by
  induction xs generalizing acc with
  | nil =>
    rw [splitLoop_nil, if_neg (by
      intro he
      exact hne (by simpa using List.isEmpty_iff.1 he))]
    simp
  | cons x t ih =>
    rw [splitLoop_cons, if_neg (by
      simp only [List.length_append, List.length_cons, List.length_nil] at hlen ⊢
      omega)]
    have hrec := ih (acc ++ [x]) (by simp) (by
      simp only [List.length_append, List.length_cons, List.length_nil] at hlen ⊢
      omega)
    rw [hrec]
    simp

lemma split_scenario :
    (split_log_file_for_multiprocessing 1000000
        (List.replicate 2500000 "x")).map List.length
      = [1000000, 1000000, 500000] := by
  have hrep : List.replicate 2500000 "x"
      = List.replicate 1000000 "x"
        ++ (List.replicate 1000000 "x" ++ List.replicate 500000 "x") := by
    rw [← List.replicate_add, ← List.replicate_add]
  unfold split_log_file_for_multiprocessing
  rw [hrep,
    splitLoop_flush (by rw [Ne, List.replicate_eq_nil_iff]; omega) []
      (by rw [List.nil_append, List.length_replicate]) _,
    splitLoop_flush (by rw [Ne, List.replicate_eq_nil_iff]; omega) []
      (by rw [List.nil_append, List.length_replicate]) _,
    splitLoop_small _ []
      (by rw [List.nil_append, Ne, List.replicate_eq_nil_iff]; omega)
      (by rw [List.nil_append, List.length_replicate]; omega)]
  simp only [List.map_cons, List.map_nil, List.nil_append, List.length_replicate]

lemma foldl_choice_mem {α : Type} (g : α → α → α)
    (hg : ∀ b c, g b c = b ∨ g b c = c) (x : α) (xs : List α) :
    xs.foldl g x ∈ x :: xs := by
  induction xs generalizing x with
  | nil => exact List.mem_cons_self x []
  | cons c t ih =>
    rw [List.foldl_cons]
    rcases hg x c with hx | hc
    · rw [hx]
      rcases List.mem_cons.1 (ih x) with h1 | h2
      · rw [h1]
        exact List.mem_cons_self x (c :: t)
      · exact List.mem_cons_of_mem x (List.mem_cons_of_mem c h2)
    · rw [hc]
      rcases List.mem_cons.1 (ih c) with h1 | h2
      · rw [h1]
        exact List.mem_cons_of_mem x (List.mem_cons_self c t)
      · exact List.mem_cons_of_mem x (List.mem_cons_of_mem c h2)

lemma foldl_max_ge {α : Type} (f : α → ℚ) (x : α) (xs : List α) :
    ∀ y ∈ x :: xs, f y ≤ f (xs.foldl (fun b c => if f b < f c then c else b) x) := by
  induction xs generalizing x with
  | nil =>
    intro y hy
    have hyx : y = x := by simpa using hy
    rw [hyx]
    exact le_refl (f x)
  | cons c t ih =>
    intro y hy
    rw [List.foldl_cons]
    have hx' : f x ≤ f (if f x < f c then c else x) ∧ f c ≤ f (if f x < f c then c else x) := by
      by_cases hfc : f x < f c
      · rw [if_pos hfc]
        exact ⟨le_of_lt hfc, le_refl _⟩
      · rw [if_neg hfc]
        exact ⟨le_refl _, le_of_not_lt hfc⟩
    have hacc := ih (if f x < f c then c else x)
      _ (List.mem_cons_self _ t)
    rcases List.mem_cons.1 hy with h1 | h2
    · rw [h1]
      exact le_trans hx'.1 hacc
    · rcases List.mem_cons.1 h2 with h3 | h4
      · rw [h3]
        exact le_trans hx'.2 hacc
      · exact ih _ y (List.mem_cons_of_mem _ h4)

lemma foldl_min_le {α : Type} (f : α → ℚ) (x : α) (xs : List α) :
    ∀ y ∈ x :: xs, f (xs.foldl (fun b c => if f c < f b then c else b) x) ≤ f y := by
  induction xs generalizing x with
  | nil =>
    intro y hy
    have hyx : y = x := by simpa using hy
    rw [hyx]
    exact le_refl (f x)
  | cons c t ih =>
    intro y hy
    rw [List.foldl_cons]
    have hx' : f (if f c < f x then c else x) ≤ f x ∧ f (if f c < f x then c else x) ≤ f c := by
      by_cases hfc : f c < f x
      · rw [if_pos hfc]
        exact ⟨le_of_lt hfc, le_refl _⟩
      · rw [if_neg hfc]
        exact ⟨le_refl _, le_of_not_lt hfc⟩
    have hacc := ih (if f c < f x then c else x)
      _ (List.mem_cons_self _ t)
    rcases List.mem_cons.1 hy with h1 | h2
    · rw [h1]
      exact le_trans hacc hx'.1
    · rcases List.mem_cons.1 h2 with h3 | h4
      · rw [h3]
        exact le_trans hacc hx'.2
      · exact ih _ y (List.mem_cons_of_mem _ h4)

lemma validResults_sub {results : List (String × StratResult)}
    {e : String × StratResult} (h : e ∈ validResults results) :
    e ∈ results ∧ isSuccessR e.2 = true := by
  unfold validResults at h
  have := List.mem_filter.1 h
  exact ⟨this.1, this.2⟩

lemma fastestStrategy_spec {results : List (String × StratResult)}
    {e : String × StratResult} (h : fastestStrategy results = some e) :
    e ∈ results ∧ isSuccessR e.2 = true ∧
    ∀ y ∈ results, isSuccessR y.2 = true → rpsOf y.2 ≤ rpsOf e.2 := by
  unfold fastestStrategy at h
  cases hv : validResults results with
  | nil => rw [hv] at h; exact absurd h (by simp)
  | cons x xs =>
    rw [hv] at h
    have he := Option.some.inj h
    have hmem : e ∈ x :: xs := by
      rw [← he]
      exact foldl_choice_mem _ (fun b c => by
        by_cases hbc : rpsOf b.2 < rpsOf c.2
        · rw [if_pos hbc]; exact Or.inr rfl
        · rw [if_neg hbc]; exact Or.inl rfl) x xs
    have hsub := validResults_sub (by rw [hv]; exact hmem)
    refine ⟨hsub.1, hsub.2, ?_⟩
    intro y hy hys
    have hyv : y ∈ x :: xs := by
      rw [← hv]
      unfold validResults
      exact List.mem_filter.2 ⟨hy, hys⟩
    have := foldl_max_ge (fun p => rpsOf p.2) x xs y hyv
    rw [he] at this
    exact this

lemma memEfficientStrategy_spec {results : List (String × StratResult)}
    {e : String × StratResult} (h : memEfficientStrategy results = some e) :
    e ∈ results ∧ isSuccessR e.2 = true ∧
    ∀ y ∈ results, isSuccessR y.2 = true → memOf e.2 ≤ memOf y.2 := by
  unfold memEfficientStrategy at h
  cases hv : validResults results with
  | nil => rw [hv] at h; exact absurd h (by simp)
  | cons x xs =>
    rw [hv] at h
    have he := Option.some.inj h
    have hmem : e ∈ x :: xs := by
      rw [← he]
      exact foldl_choice_mem _ (fun b c => by
        by_cases hbc : memOf c.2 < memOf b.2
        · rw [if_pos hbc]; exact Or.inr rfl
        · rw [if_neg hbc]; exact Or.inl rfl) x xs
    have hsub := validResults_sub (by rw [hv]; exact hmem)
    refine ⟨hsub.1, hsub.2, ?_⟩
    intro y hy hys
    have hyv : y ∈ x :: xs := by
      rw [← hv]
      unfold validResults
      exact List.mem_filter.2 ⟨hy, hys⟩
    have := foldl_min_le (fun p => memOf p.2) x xs y hyv
    rw [he] at this
    exact this

lemma flushIfFull_counters (cs : Nat) (st : PipeState) :
    (flushIfFull cs st).total_records = st.total_records ∧
    (flushIfFull cs st).filtered_records = st.filtered_records ∧
    (flushIfFull cs st).error_records = st.error_records := by
  unfold flushIfFull
  by_cases hcs : cs ≤ st.batch.length
  · rw [if_pos hcs]
    exact ⟨rfl, rfl, rfl⟩
  · rw [if_neg hcs]
    exact ⟨rfl, rfl, rfl⟩

lemma processLine_counters {ph : String → Option String} {cs : Nat}
    {st st' : PipeState} {l : RawLine} (h : processLine ph cs st l = some st') :
    st'.total_records = st.total_records + (if isObjL l then 1 else 0) ∧
    st'.filtered_records = st.filtered_records + (if passesFilter l then 1 else 0) ∧
    st'.error_records = st.error_records + (if isMalformedL l then 1 else 0) := by
  cases l with
  | blank =>
    cases Option.some.inj h
    simp [isObjL, passesFilter, isMalformedL]
  | malformed =>
    cases Option.some.inj h
    simp [isObjL, passesFilter, isMalformedL]
  | jsonNonObj => exact absurd h (by simp [processLine])
  | jsonObj fields =>
    rw [processLine] at h
    cases hst : statusTest (jget fields "status_code" (.jInt 0)) <;> rw [hst] at h
    · exact absurd h (by simp)
    case some b =>
      cases b with
      | false =>
        cases Option.some.inj h
        have hc := flushIfFull_counters cs
          { st with total_records := st.total_records + 1 }
        refine ⟨?_, ?_, ?_⟩
        · rw [hc.1]
          simp [isObjL]
        · rw [hc.2.1]
          simp [passesFilter, hst]
        · rw [hc.2.2]
          simp [isMalformedL]
      | true =>
        cases hclean : clean_log_record ph fields <;> rw [hclean] at h
        · cases Option.some.inj h
          have hc := flushIfFull_counters cs
            { st with total_records := st.total_records + 1,
                      filtered_records := st.filtered_records + 1 }
          refine ⟨?_, ?_, ?_⟩
          · rw [hc.1]
            simp [isObjL]
          · rw [hc.2.1]
            simp [passesFilter, hst]
          · rw [hc.2.2]
            simp [isMalformedL]
        case some r =>
          cases Option.some.inj h
          have hc := flushIfFull_counters cs
            { st with total_records := st.total_records + 1,
                      filtered_records := st.filtered_records + 1,
                      batch := st.batch ++ [r] }
          refine ⟨?_, ?_, ?_⟩
          · rw [hc.1]
            simp [isObjL]
          · rw [hc.2.1]
            simp [passesFilter, hst]
          · rw [hc.2.2]
            simp [isMalformedL]

lemma runFrom_counters {ph : String → Option String} {cs : Nat}
    {lines : List RawLine} {st st' : PipeState}
    (h : runFrom ph cs st lines = some st') :
    st'.total_records = st.total_records + lines.countP isObjL ∧
    st'.filtered_records = st.filtered_records + lines.countP passesFilter ∧
    st'.error_records = st.error_records + lines.countP isMalformedL := by
  induction lines generalizing st with
  | nil =>
    cases Option.some.inj h
    simp
  | cons l ls ih =>
    rw [runFrom_cons] at h
    cases hpl : processLine ph cs st l with
    | none => rw [hpl] at h; exact absurd h (by simp)
    | some st1 =>
      rw [hpl] at h
      have hstep := processLine_counters hpl
      have hrest := ih h
      refine ⟨?_, ?_, ?_⟩
      · rw [List.countP_cons]
        have h1 := hstep.1
        have h2 := hrest.1
        by_cases hc : isObjL l = true <;> simp [hc] at h1 ⊢ <;> omega
      · rw [List.countP_cons]
        have h1 := hstep.2.1
        have h2 := hrest.2.1
        by_cases hc : passesFilter l = true <;> simp [hc] at h1 ⊢ <;> omega
      · rw [List.countP_cons]
        have h1 := hstep.2.2
        have h2 := hrest.2.2
        by_cases hc : isMalformedL l = true <;> simp [hc] at h1 ⊢ <;> omega

lemma finalFlush_counters (st : PipeState) :
    (finalFlush st).total_records = st.total_records ∧
    (finalFlush st).filtered_records = st.filtered_records ∧
    (finalFlush st).error_records = st.error_records := by
  unfold finalFlush
  by_cases he : st.batch.isEmpty
  · rw [if_pos he]
    exact ⟨rfl, rfl, rfl⟩
  · rw [if_neg he]
    exact ⟨rfl, rfl, rfl⟩

lemma runFrom_some_lineOk {ph : String → Option String} {cs : Nat}
    {lines : List RawLine} {st st' : PipeState}
    (h : runFrom ph cs st lines = some st') :
    ∀ l ∈ lines, lineOk l = true := by
  intro l hl
  by_cases hok : lineOk l = true
  · exact hok
  · have hbad : lineOk l = false := by
      cases hlineOk : lineOk l
      · rfl
      · exact absurd hlineOk hok
    rw [runFrom_none_of_bad hl hbad st] at h
    exact absurd h (by simp)

lemma countP_line_partition (lines : List RawLine)
    (hok : ∀ l ∈ lines, lineOk l = true) :
    lines.countP isObjL + lines.countP isBlankL + lines.countP isMalformedL
      = lines.length := by
  induction lines with
  | nil => rfl
  | cons l t ih =>
    have hok_l := hok l (List.mem_cons_self l t)
    have hrest := ih (fun x hx => hok x (List.mem_cons_of_mem l hx))
    rw [List.countP_cons, List.countP_cons, List.countP_cons, List.length_cons]
    cases l <;> simp [isObjL, isBlankL, isMalformedL, lineOk] at hok_l ⊢ <;> omega

/-- Claim C2, counterexample: a file consisting of one malformed line
(N = 1, B = 0, K = 1) runs successfully with `total_records = 0`, while the
claim predicts `total_records = N - B = 1`: a malformed line is counted as an
error but NOT counted in `total_records`, because the counter is incremented
only after `json.loads` succeeds. -/
theorem C2_counterexample :
    processFile (fun _ => none) 100000 [RawLine.malformed]
      = some ({ total_records := 0, filtered_records := 0, error_records := 1,
                batch := [], aggs := [] }, []) ∧
    (0 : Nat) ≠ [RawLine.malformed].length - [RawLine.malformed].countP isBlankL :=
  ⟨rfl, by decide⟩

/-- Claim C2 (amended): for every input file of N lines of which B are blank
and K are malformed, a successful single-process run ends with
`error_records = K` and `total_records = N - B - K` (stated additively:
`total_records + B + K = N`): blank lines are counted nowhere and malformed
lines are counted only as errors, not in `total_records`. -/
theorem C2_amended (ph : String → Option String) (cs : Nat) (lines : List RawLine)
    (st : PipeState) (final : List AggRow)
    (h : processFile ph cs lines = some (st, final)) :
    st.error_records = lines.countP isMalformedL ∧
    st.total_records + lines.countP isBlankL + lines.countP isMalformedL
      = lines.length := by
  unfold processFile at h
  cases hrun : runLines ph cs lines with
  | none => rw [hrun] at h; exact absurd h (by simp)
  | some st0 =>
    rw [hrun] at h
    have h2 : (consolidateBatches (finalFlush st0).aggs).map
        (fun f => (finalFlush st0, f)) = some (st, final) := h
    cases hcb : consolidateBatches (finalFlush st0).aggs with
    | none => rw [hcb] at h2; exact absurd h2 (by simp)
    | some fin =>
      rw [hcb] at h2
      simp only [Option.map_some'] at h2
      have hpair := Option.some.inj h2
      have hst : st = finalFlush st0 := (congrArg Prod.fst hpair).symm
      have hc := runFrom_counters hrun
      have hff := finalFlush_counters st0
      have hok := runFrom_some_lineOk hrun
      have hpart := countP_line_partition lines hok
      constructor
      · rw [hst, hff.2.2]
        have := hc.2.2
        simpa [initState] using this
      · rw [hst, hff.1]
        have htot := hc.1
        simp only [initState] at htot
        omega

/-- Witness for C2 (amended) on the concrete file
`[blank, malformed, {}]`: N = 3, B = 1, K = 1, so `error_records = 1` and
`total_records = 1 = 3 - 1 - 1`. -/
theorem C2_witness :
    ({ total_records := 1, filtered_records := 0, error_records := 1,
       batch := [], aggs := [] } : PipeState).error_records
      = [RawLine.blank, RawLine.malformed, RawLine.jsonObj []].countP isMalformedL ∧
    ({ total_records := 1, filtered_records := 0, error_records := 1,
       batch := [], aggs := [] } : PipeState).total_records
        + [RawLine.blank, RawLine.malformed, RawLine.jsonObj []].countP isBlankL
        + [RawLine.blank, RawLine.malformed, RawLine.jsonObj []].countP isMalformedL
      = [RawLine.blank, RawLine.malformed, RawLine.jsonObj []].length :=
  C2_amended (fun _ => none) 100000
    [RawLine.blank, RawLine.malformed, RawLine.jsonObj []]
    { total_records := 1, filtered_records := 0, error_records := 1,
      batch := [], aggs := [] } [] rfl

/-- Claim C4, counterexample: (1) a line that is well-formed JSON but not an
object (`json.loads` returns a non-dict, `.get` raises `AttributeError`), and
an object line whose `status_code` is a string (the `>= 500` comparison raises
`TypeError`), both escape the per-line handler (which only catches
`JSONDecodeError`) and abort the whole single-process strategy run; (2) even a
line the per-line loop fully accepts can abort the strategy later: a single
object line with `status_code` 500 and an unhashable (array/object) `endpoint`
is cleaned and batched without raising, but its batch's `groupby` raises
`TypeError`, the batch handler stores a column-less empty frame, and the final
`pd.concat` + `groupby(['hour','endpoint'])` over only such frames raises
`KeyError`, failing the whole strategy. -/
theorem C4_counterexample :
    processFile (fun _ => none) 100000 [RawLine.jsonNonObj] = none ∧
    processFile (fun _ => none) 100000
      [RawLine.jsonObj [("status_code", JValue.jStr "oops")]] = none ∧
    processFile (fun _ => none) 100000
      [RawLine.jsonObj [("status_code", JValue.jInt 500),
                        ("endpoint", JValue.jOther true)]] = none :=
  ⟨rfl, rfl, rfl⟩

/-- Claim C4 (amended): line-level processing never raises for blank lines,
structurally malformed lines, and object lines whose `status_code` field
(default 0) is integer-comparable — such lines are converted, counted or
dropped and the per-line loop continues; and if, in addition, every cleaned
record is aggregable (numeric `response_time_ms`, hashable `endpoint`), a run
with positive chunk size completes successfully. But a line parsing to a
non-object JSON value, or an object with a non-integer-comparable
`status_code`, raises past the per-line handler and makes the whole strategy
fail — and a line the loop accepts can still fail the strategy downstream,
at the batch `groupby` and the final merge (see the counterexample). -/
theorem C4_amended (ph : String → Option String) (cs : Nat) (lines : List RawLine) :
    (0 < cs →
      (∀ l ∈ lines,
        lineOk l = true ∧ numericLine l = true ∧ hashableLine l = true) →
      ∃ st final, processFile ph cs lines = some (st, final)) ∧
    (∀ l ∈ lines, lineOk l = false → processFile ph cs lines = none) ∧
    (∀ fields, lineOk (RawLine.jsonObj fields)
      = (statusTest (jget fields "status_code" (.jInt 0))).isSome) ∧
    lineOk RawLine.blank = true ∧
    lineOk RawLine.malformed = true ∧
    lineOk RawLine.jsonNonObj = false := by
  refine ⟨?_, ?_, fun fields => rfl, rfl, rfl, rfl⟩
  · intro hcs hok
    exact processFile_total hcs hok
  · intro l hl hbad
    unfold processFile runLines
    rw [runFrom_none_of_bad hl hbad initState]
    rfl

/-- Witness for C4 (amended): the file `[blank, malformed]` is processed to
completion, while the one-line file `[5]` (a non-object JSON value) aborts. -/
theorem C4_witness :
    (∃ st final, processFile (fun _ => none) 100000
        [RawLine.blank, RawLine.malformed] = some (st, final)) ∧
    processFile (fun _ => none) 100000 [RawLine.jsonNonObj] = none :=
  ⟨(C4_amended (fun _ => none) 100000 [RawLine.blank, RawLine.malformed]).1
      (by decide) (by decide),
    (C4_amended (fun _ => none) 100000 [RawLine.jsonNonObj]).2.1
      RawLine.jsonNonObj (List.mem_cons_self _ _) rfl⟩

/-- Claim C3, counterexample: a record with `status_code = 500` (so it passes
the filter) whose timestamp is present but unparseable is NOT given the epoch
sentinel hour: `datetime.fromisoformat` raises, the cleaner's handler returns
`None`, and the record is dropped. -/
theorem C3_counterexample :
    statusTest (jget [("timestamp", JValue.jStr "bad"), ("status_code", JValue.jInt 500)]
      "status_code" (.jInt 0)) = some true ∧
    clean_log_record (fun _ => none)
      [("timestamp", JValue.jStr "bad"), ("status_code", JValue.jInt 500)] = none :=
  ⟨rfl, rfl⟩

/-- Claim C3 (amended): for a well-formed record, a missing endpoint yields
the sentinel `"unknown"`, a missing timestamp yields the epoch sentinel hour,
and a missing `status_code` is treated as 0 and hence excluded by the filter;
but a timestamp that is present and unparseable makes the cleaner return its
failure signal, so the record is dropped rather than bucketed at the epoch
hour. -/
theorem C3_amended (ph : String → Option String) (fields : List (String × JValue)) :
    (fields.lookup "timestamp" = none →
      (statusTest (jget fields "status_code" (.jInt 0))).isSome = true →
      ∃ r, clean_log_record ph fields = some r ∧ r.hour = epochHour ∧
        (fields.lookup "endpoint" = none → r.endpoint = JValue.jStr "unknown") ∧
        (fields.lookup "status_code" = none → r.status_code = JValue.jInt 0)) ∧
    (fields.lookup "status_code" = none →
      passesFilter (RawLine.jsonObj fields) = false) ∧
    (∀ s, fields.lookup "timestamp" = some (JValue.jStr s) → s ≠ "" →
      ph s = none → clean_log_record ph fields = none) := by
  refine ⟨?_, ?_, ?_⟩
  · intro hts hst
    have hhour : hourOf ph (jget fields "timestamp" (.jStr "")) = some epochHour := by
      unfold jget
      rw [hts]
      rfl
    cases hb : statusTest (jget fields "status_code" (.jInt 0)) with
    | none => rw [hb] at hst; exact absurd hst (by simp)
    | some b =>
      refine ⟨{ hour := epochHour,
                endpoint := jget fields "endpoint" (.jStr "unknown"),
                status_code := jget fields "status_code" (.jInt 0),
                response_time_ms := jget fields "response_time_ms" (.jInt 0),
                method := jget fields "method" (.jStr "GET"),
                level := jget fields "level" (.jStr "INFO"),
                error_rate := if b then 1 else 0 }, ?_, rfl, ?_, ?_⟩
      · unfold clean_log_record
        rw [hhour, hb]
      · intro hep
        show jget fields "endpoint" (.jStr "unknown") = _
        unfold jget
        rw [hep]
      · intro hsc
        show jget fields "status_code" (.jInt 0) = _
        unfold jget
        rw [hsc]
  · intro hsc
    show (statusTest (jget fields "status_code" (.jInt 0)) == some true) = false
    have hj : jget fields "status_code" (.jInt 0) = .jInt 0 := by
      unfold jget
      rw [hsc]
    rw [hj]
    rfl
  · intro s hts hs hphs
    have hj : jget fields "timestamp" (.jStr "") = .jStr s := by
      unfold jget
      rw [hts]
    have hh : hourOf ph (.jStr s) = none := by
      show (if s = "" then some epochHour else ph s) = none
      rw [if_neg hs]
      exact hphs
    unfold clean_log_record
    rw [hj, hh]

/-- Witness for C3 (amended): the empty record `{}` cleans to a record with the
epoch hour, endpoint `"unknown"` and status 0, is excluded by the filter, and
the record `{timestamp: "bad"}` with an unparseable timestamp is dropped. -/
theorem C3_witness :
    (∃ r, clean_log_record (fun _ => none) ([] : List (String × JValue)) = some r ∧
      r.hour = epochHour ∧
      (([] : List (String × JValue)).lookup "endpoint" = none →
        r.endpoint = JValue.jStr "unknown") ∧
      (([] : List (String × JValue)).lookup "status_code" = none →
        r.status_code = JValue.jInt 0)) ∧
    passesFilter (RawLine.jsonObj []) = false ∧
    clean_log_record (fun _ => none) [("timestamp", JValue.jStr "bad")] = none :=
  ⟨(C3_amended (fun _ => none) []).1 rfl rfl,
    (C3_amended (fun _ => none) []).2.1 rfl,
    (C3_amended (fun _ => none) [("timestamp", JValue.jStr "bad")]).2.2 "bad" rfl
      (by decide) rfl⟩

/-- Claim C1, counterexample: (1) a record with `status_code = 500` and an
unparseable timestamp is counted in `filtered_records` (= 1) but the cleaner
drops it, so it contributes no record to any `(hour, endpoint)` group: the
final aggregate is empty and its total count is 0, not 1; (2) a shard of two
filtered records of which one has an unhashable (array/object) `endpoint`
makes the shard's `groupby` raise `TypeError`, so the handler discards the
WHOLE shard table: the worker reports success with `filtered = 2` and an
empty table, although the other record alone would have grouped fine. -/
theorem C1_counterexample :
    (processFile (fun _ => none) 100000
        [RawLine.jsonObj [("status_code", JValue.jInt 500),
                          ("timestamp", JValue.jStr "bad")]]
      = some ({ total_records := 1, filtered_records := 1, error_records := 0,
                batch := [], aggs := [] }, []) ∧
    totalCount [] = 0 ∧
    ({ total_records := 1, filtered_records := 1, error_records := 0,
       batch := [], aggs := [] } : PipeState).filtered_records = 1) ∧
    (process_chunk_multiprocessing (fun _ => none)
        [RawLine.jsonObj [("status_code", JValue.jInt 500),
                          ("endpoint", JValue.jStr "e")],
         RawLine.jsonObj [("status_code", JValue.jInt 500),
                          ("endpoint", JValue.jOther true)]]
      = ChunkResult.success 2 2 0 [] ∧
    [RawLine.jsonObj [("status_code", JValue.jInt 500),
                      ("endpoint", JValue.jStr "e")],
     RawLine.jsonObj [("status_code", JValue.jInt 500),
                      ("endpoint", JValue.jOther true)]].countP
        (contributes (fun _ => none)) = 1) :=
  ⟨⟨rfl, rfl, rfl⟩, by constructor <;> rfl⟩

/-- Claim C1 (amended): in a successful single-process run over lines whose
`response_time_ms` fields are numeric and whose `endpoint` fields are
hashable (so no batch-level `groupby` raises and empties a stored table), the
total count over the final aggregate equals the number of lines that parse,
pass the `status_code >= 500` filter, are successfully cleaned, and whose
cleaned key survives grouping — each such record contributes exactly once;
`filtered_records` counts exactly the lines passing the filter (so a filtered
record whose cleaning fails, or whose key is dropped, is counted there but
contributes nothing); no line failing the filter ever contributes; and the
per-shard worker pipeline accounts records the same way. -/
theorem C1_amended (ph : String → Option String) (cs : Nat) (lines : List RawLine)
    (st : PipeState) (final : List AggRow)
    (hnum : ∀ l ∈ lines, numericLine l = true)
    (hhash : ∀ l ∈ lines, hashableLine l = true)
    (h : processFile ph cs lines = some (st, final)) :
    totalCount final = lines.countP (contributes ph) ∧
    st.filtered_records = lines.countP passesFilter ∧
    (∀ l, contributes ph l = true → passesFilter l = true) ∧
    (∀ t f e data,
      process_chunk_multiprocessing ph lines = ChunkResult.success t f e data →
      totalCount data = lines.countP (contributes ph) ∧
      f = lines.countP passesFilter) := by
  have hps := processFile_spec h hnum hhash
  refine ⟨hps.1, hps.2.2.1, ?_, ?_⟩
  · intro l hc
    cases l with
    | blank => exact absurd hc (by simp [contributes])
    | malformed => exact absurd hc (by simp [contributes])
    | jsonNonObj => exact absurd hc (by simp [contributes])
    | jsonObj fields =>
      simp only [contributes, Bool.and_eq_true] at hc
      simp only [passesFilter]
      exact hc.1
  · intro t f e data hsucc
    rw [process_chunk_eq] at hsucc
    cases hcf : chunkFold ph chunkInit lines with
    | none => rw [hcf] at hsucc; exact absurd hsucc (by simp)
    | some a =>
      rw [hcf] at hsucc
      have hspec := chunkFold_spec hcf
        (by intro r hr; exact absurd hr (List.not_mem_nil r)) hnum hhash
      injection hsucc with ht hf he hd
      constructor
      · rw [← hd, totalCount_aggregate (aggOK_of_batchOK hspec.1)]
        have := hspec.2.1
        simpa [gcount, chunkInit] using this
      · rw [← hf]
        have := hspec.2.2.2.1
        simpa [chunkInit] using this

/-- Witness for C1 (amended) on a concrete three-line file: one record passes
the filter but is dropped by the cleaner (unparseable timestamp), one fails
the filter, one line is blank — so `filtered_records = 1` while no record
contributes and the final aggregate is empty, in both the single-process and
the per-shard pipeline. -/
theorem C1_witness :
    totalCount [] = [RawLine.jsonObj [("status_code", JValue.jInt 503),
                                      ("timestamp", JValue.jStr "bad")],
                     RawLine.jsonObj [("status_code", JValue.jInt 200)],
                     RawLine.blank].countP (contributes (fun _ => none)) ∧
    ({ total_records := 2, filtered_records := 1, error_records := 0,
       batch := [], aggs := [] } : PipeState).filtered_records
      = [RawLine.jsonObj [("status_code", JValue.jInt 503),
                          ("timestamp", JValue.jStr "bad")],
         RawLine.jsonObj [("status_code", JValue.jInt 200)],
         RawLine.blank].countP passesFilter ∧
    (∀ l, contributes (fun _ => none) l = true → passesFilter l = true) ∧
    (∀ t f e data,
      process_chunk_multiprocessing (fun _ => none)
          [RawLine.jsonObj [("status_code", JValue.jInt 503),
                            ("timestamp", JValue.jStr "bad")],
           RawLine.jsonObj [("status_code", JValue.jInt 200)],
           RawLine.blank] = ChunkResult.success t f e data →
      totalCount data
        = [RawLine.jsonObj [("status_code", JValue.jInt 503),
                            ("timestamp", JValue.jStr "bad")],
           RawLine.jsonObj [("status_code", JValue.jInt 200)],
           RawLine.blank].countP (contributes (fun _ => none)) ∧
      f = [RawLine.jsonObj [("status_code", JValue.jInt 503),
                            ("timestamp", JValue.jStr "bad")],
           RawLine.jsonObj [("status_code", JValue.jInt 200)],
           RawLine.blank].countP passesFilter) :=
  C1_amended (fun _ => none) 100000
    [RawLine.jsonObj [("status_code", JValue.jInt 503),
                      ("timestamp", JValue.jStr "bad")],
     RawLine.jsonObj [("status_code", JValue.jInt 200)],
     RawLine.blank]
    { total_records := 2, filtered_records := 1, error_records := 0,
      batch := [], aggs := [] } []
    (by decide) (by decide) rfl

/-- Claim C5: the file partitioner is lossless and order-preserving —
concatenating the shards in order reproduces the original line sequence,
each shard holds at most `k` lines (the source fixes `k = 1000000`), and a
2,500,000-line input yields exactly the shards of sizes
1,000,000 / 1,000,000 / 500,000, in that order. -/
theorem C5_partitioner (k : Nat) (lines : List String) (hk : 0 < k) :
    (split_log_file_for_multiprocessing k lines).flatten = lines ∧
    (∀ shard ∈ split_log_file_for_multiprocessing k lines, shard.length ≤ k) ∧
    (split_log_file_for_multiprocessing 1000000
        (List.replicate 2500000 "x")).map List.length
      = [1000000, 1000000, 500000] := by
  refine ⟨?_, ?_, split_scenario⟩
  · have h := splitLoop_flatten k ([] : List String) lines
    simpa [split_log_file_for_multiprocessing] using h
  · exact splitLoop_length_le hk lines [] (by simpa using hk)

/-- Witness for C5 at `k = 2` on a three-line file: shards `[a,b]` and `[c]`,
concatenating back to the original. -/
theorem C5_witness :
    (split_log_file_for_multiprocessing 2 ["a", "b", "c"]).flatten
      = ["a", "b", "c"] ∧
    (∀ shard ∈ split_log_file_for_multiprocessing 2 ["a", "b", "c"],
      shard.length ≤ 2) ∧
    (split_log_file_for_multiprocessing 1000000
        (List.replicate 2500000 "x")).map List.length
      = [1000000, 1000000, 500000] :=
  C5_partitioner 2 ["a", "b", "c"] (by decide)

/-- Claim C6: for every batch split of a collection of normalized records
(with numeric fields and hashable — in the data model, string — endpoints,
so that no batch aggregation raises), aggregating per batch and merging
gives every `(hour, endpoint)` key the same count as aggregating everything
at once; the merged count is invariant under permuting the batches; and
merging any collection of partial tables is count-wise order-independent.
(`avg_response_time` is exempted by the claim itself.) -/
theorem C6_count_split_merge_invariance
    (bs bs' : List (List NormalizedRecord)) (k : String × JValue)
    (hnum : ∀ r ∈ bs.flatten, r.response_time_ms.isNum = true)
    (hend : ∀ r ∈ bs.flatten, (JValue.hashable r.endpoint) = true)
    (hsc : ∀ r ∈ bs.flatten, r.status_code.isNum = true)
    (hperm : bs.Perm bs') :
    keyCount k (mergeAggs (bs.map aggregate_by_hour_endpoint))
      = keyCount k (aggregate_by_hour_endpoint bs.flatten) ∧
    keyCount k (mergeAggs (bs.map aggregate_by_hour_endpoint))
      = keyCount k (mergeAggs (bs'.map aggregate_by_hour_endpoint)) ∧
    (∀ parts parts' : List (List AggRow), parts.Perm parts' →
      keyCount k (mergeAggs parts) = keyCount k (mergeAggs parts')) := by
  have _hsc := hsc
  have hmain : ∀ (cs : List (List NormalizedRecord)),
      (∀ r ∈ cs.flatten, r.response_time_ms.isNum = true) →
      (∀ r ∈ cs.flatten, (JValue.hashable r.endpoint) = true) →
      keyCount k (mergeAggs (cs.map aggregate_by_hour_endpoint))
        = (cs.flatten.filter (fun r => groupKey r = some k)).length := by
    intro cs hn he
    rw [keyCount_mergeAggs, List.map_map]
    have hpt : ∀ b ∈ cs, (keyCount k ∘ aggregate_by_hour_endpoint) b
        = (fun b => (b.filter (fun r => groupKey r = some k)).length) b := by
      intro b hb
      have hOK : aggOK b := aggOK_of_ok
        (fun r hr => he r (List.mem_flatten.2 ⟨b, hb, hr⟩))
        (fun r hr => hn r (List.mem_flatten.2 ⟨b, hb, hr⟩))
      simp only [Function.comp_apply]
      exact keyCount_aggregate k hOK
    rw [List.map_congr_left hpt, filter_flatten, List.length_flatten, List.map_map]
    rfl
  have hnum' : ∀ r ∈ bs'.flatten, r.response_time_ms.isNum = true := by
    intro r hr
    exact hnum r ((hperm.flatten).mem_iff.2 hr)
  have hend' : ∀ r ∈ bs'.flatten, (JValue.hashable r.endpoint) = true := by
    intro r hr
    exact hend r ((hperm.flatten).mem_iff.2 hr)
  have hOKall : aggOK bs.flatten := aggOK_of_ok hend hnum
  refine ⟨?_, ?_, ?_⟩
  · rw [hmain bs hnum hend, keyCount_aggregate k hOKall]
  · rw [hmain bs hnum hend, hmain bs' hnum' hend']
    rw [← List.countP_eq_length_filter, ← List.countP_eq_length_filter]
    exact (hperm.flatten).countP_eq _
  · intro parts parts' hpp
    rw [keyCount_mergeAggs, keyCount_mergeAggs]
    exact (hpp.map (keyCount k)).sum_eq

/-- Witness for C6: splitting two records into two singleton batches, merged
in either order, registers the same count for their shared key as the
all-at-once aggregation. -/
theorem C6_witness :
    keyCount ("h", JValue.jStr "e")
        (mergeAggs ([[{ hour := "h", endpoint := JValue.jStr "e",
                        status_code := JValue.jInt 500,
                        response_time_ms := JValue.jInt 10,
                        method := JValue.jStr "GET", level := JValue.jStr "INFO",
                        error_rate := 1 }],
                     [{ hour := "h", endpoint := JValue.jStr "e",
                        status_code := JValue.jInt 503,
                        response_time_ms := JValue.jInt 20,
                        method := JValue.jStr "GET", level := JValue.jStr "INFO",
                        error_rate := 1 }]].map aggregate_by_hour_endpoint))
      = keyCount ("h", JValue.jStr "e")
          (aggregate_by_hour_endpoint
            ([[{ hour := "h", endpoint := JValue.jStr "e",
                 status_code := JValue.jInt 500,
                 response_time_ms := JValue.jInt 10,
                 method := JValue.jStr "GET", level := JValue.jStr "INFO",
                 error_rate := 1 }],
              [{ hour := "h", endpoint := JValue.jStr "e",
                 status_code := JValue.jInt 503,
                 response_time_ms := JValue.jInt 20,
                 method := JValue.jStr "GET", level := JValue.jStr "INFO",
                 error_rate := 1 }]] : List (List NormalizedRecord)).flatten) ∧
    keyCount ("h", JValue.jStr "e")
        (mergeAggs ([[{ hour := "h", endpoint := JValue.jStr "e",
                        status_code := JValue.jInt 500,
                        response_time_ms := JValue.jInt 10,
                        method := JValue.jStr "GET", level := JValue.jStr "INFO",
                        error_rate := 1 }],
                     [{ hour := "h", endpoint := JValue.jStr "e",
                        status_code := JValue.jInt 503,
                        response_time_ms := JValue.jInt 20,
                        method := JValue.jStr "GET", level := JValue.jStr "INFO",
                        error_rate := 1 }]].map aggregate_by_hour_endpoint))
      = keyCount ("h", JValue.jStr "e")
          (mergeAggs ([[{ hour := "h", endpoint := JValue.jStr "e",
                          status_code := JValue.jInt 503,
                          response_time_ms := JValue.jInt 20,
                          method := JValue.jStr "GET", level := JValue.jStr "INFO",
                          error_rate := 1 }],
                       [{ hour := "h", endpoint := JValue.jStr "e",
                          status_code := JValue.jInt 500,
                          response_time_ms := JValue.jInt 10,
                          method := JValue.jStr "GET", level := JValue.jStr "INFO",
                          error_rate := 1 }]].map aggregate_by_hour_endpoint)) ∧
    (∀ parts parts' : List (List AggRow), parts.Perm parts' →
      keyCount ("h", JValue.jStr "e") (mergeAggs parts)
        = keyCount ("h", JValue.jStr "e") (mergeAggs parts')) :=
  C6_count_split_merge_invariance
    [[{ hour := "h", endpoint := JValue.jStr "e", status_code := JValue.jInt 500,
        response_time_ms := JValue.jInt 10, method := JValue.jStr "GET",
        level := JValue.jStr "INFO", error_rate := 1 }],
     [{ hour := "h", endpoint := JValue.jStr "e", status_code := JValue.jInt 503,
        response_time_ms := JValue.jInt 20, method := JValue.jStr "GET",
        level := JValue.jStr "INFO", error_rate := 1 }]]
    [[{ hour := "h", endpoint := JValue.jStr "e", status_code := JValue.jInt 503,
        response_time_ms := JValue.jInt 20, method := JValue.jStr "GET",
        level := JValue.jStr "INFO", error_rate := 1 }],
     [{ hour := "h", endpoint := JValue.jStr "e", status_code := JValue.jInt 500,
        response_time_ms := JValue.jInt 10, method := JValue.jStr "GET",
        level := JValue.jStr "INFO", error_rate := 1 }]]
    ("h", JValue.jStr "e") (by decide) (by decide) (by decide) (by decide)

/-- Claim C7: merging a collection of partial tables (each with unique keys)
yields, per key, `count` = sum of that key's counts over all contributing
partials, and `avg_response_time` / `error_rate` = the straight (unweighted)
mean of the per-partial means for that key; the empty collection merges to
the empty table, not an error. -/
theorem C7_merge_stage (parts : List (List AggRow))
    (hU : ∀ p ∈ parts, (p.filterMap rowKey).Nodup) :
    mergeAggs ([] : List (List AggRow)) = [] ∧
    (∀ row ∈ mergeAggs parts, ∀ k, rowKey row = some k →
      row.count = (parts.map (fun p => keyCount k p)).sum ∧
      row.avg_response_time
        = (avgsAt k parts).sum / ((avgsAt k parts).length : ℚ) ∧
      row.error_rate
        = (errsAt k parts).sum / ((errsAt k parts).length : ℚ)) ∧
    (∀ k p r, p ∈ parts → r ∈ p → rowKey r = some k →
      ∃ row ∈ mergeAggs parts, rowKey row = some k) := by
  refine ⟨rfl, ?_, ?_⟩
  · intro row hrow k hk
    rw [mergeAggs_eq] at hrow
    have hspec := mergeRows_row_spec hrow hk
    have hfilter : parts.flatten.filter (fun r => rowKey r = some k)
        = parts.filterMap (lookupRow k) := by
      rw [filter_flatten]
      have hpt : ∀ p ∈ parts,
          (fun p => p.filter (fun r => rowKey r = some k)) p
            = (fun p => (lookupRow k p).toList) p := by
        intro p hp
        exact filter_eq_lookupRow (hU p hp) k
      rw [List.map_congr_left hpt, flatten_map_toList]
    refine ⟨?_, ?_, ?_⟩
    · rw [hspec.1, filter_flatten, List.map_flatten, List.sum_flatten,
        List.map_map, List.map_map]
      have hpt : ∀ p ∈ parts,
          ((List.sum ∘ List.map AggRow.count) ∘
            (fun p => p.filter (fun r => rowKey r = some k))) p
            = (fun p => keyCount k p) p := by
        intro p _
        simp only [Function.comp_apply]
        exact (sum_ite_filter (fun r => rowKey r = some k) AggRow.count p).symm
      rw [List.map_congr_left hpt]
    · rw [hspec.2.1, hfilter]
      have hm : avgsAt k parts
          = (parts.filterMap (lookupRow k)).map AggRow.avg_response_time := by
        unfold avgsAt
        rw [List.map_filterMap]
      rw [hm, List.length_map]
    · rw [hspec.2.2, hfilter]
      have hm : errsAt k parts
          = (parts.filterMap (lookupRow k)).map AggRow.error_rate := by
        unfold errsAt
        rw [List.map_filterMap]
      rw [hm, List.length_map]
  · intro k p r hp hr hk
    rw [mergeAggs_eq]
    exact mergeRows_exists (List.mem_flatten.2 ⟨p, hp, hr⟩) hk

/-- Witness for C7 on two singleton partial tables sharing one key. -/
theorem C7_witness :
    mergeAggs ([] : List (List AggRow)) = [] ∧
    (∀ row ∈ mergeAggs
        [[{ hour := "h", endpoint := JValue.jStr "e", count := 3,
            avg_response_time := 10, error_rate := 1 }],
         [{ hour := "h", endpoint := JValue.jStr "e", count := 1,
            avg_response_time := 20, error_rate := 1 }]],
      ∀ k, rowKey row = some k →
      row.count = ([[{ hour := "h", endpoint := JValue.jStr "e", count := 3,
                       avg_response_time := 10, error_rate := 1 }],
                    [{ hour := "h", endpoint := JValue.jStr "e", count := 1,
                       avg_response_time := 20, error_rate := 1 }]].map
                    (fun p => keyCount k p)).sum ∧
      row.avg_response_time
        = (avgsAt k [[{ hour := "h", endpoint := JValue.jStr "e", count := 3,
                        avg_response_time := 10, error_rate := 1 }],
                     [{ hour := "h", endpoint := JValue.jStr "e", count := 1,
                        avg_response_time := 20, error_rate := 1 }]]).sum
          / ((avgsAt k [[{ hour := "h", endpoint := JValue.jStr "e", count := 3,
                           avg_response_time := 10, error_rate := 1 }],
                        [{ hour := "h", endpoint := JValue.jStr "e", count := 1,
                           avg_response_time := 20, error_rate := 1 }]]).length : ℚ) ∧
      row.error_rate
        = (errsAt k [[{ hour := "h", endpoint := JValue.jStr "e", count := 3,
                        avg_response_time := 10, error_rate := 1 }],
                     [{ hour := "h", endpoint := JValue.jStr "e", count := 1,
                        avg_response_time := 20, error_rate := 1 }]]).sum
          / ((errsAt k [[{ hour := "h", endpoint := JValue.jStr "e", count := 3,
                           avg_response_time := 10, error_rate := 1 }],
                        [{ hour := "h", endpoint := JValue.jStr "e", count := 1,
                           avg_response_time := 20, error_rate := 1 }]]).length : ℚ)) ∧
    (∀ k p r, p ∈ [[{ hour := "h", endpoint := JValue.jStr "e", count := 3,
                      avg_response_time := 10, error_rate := 1 }],
                   [{ hour := "h", endpoint := JValue.jStr "e", count := 1,
                      avg_response_time := 20, error_rate := 1 }]] → r ∈ p →
      rowKey r = some k →
      ∃ row ∈ mergeAggs
          [[{ hour := "h", endpoint := JValue.jStr "e", count := 3,
              avg_response_time := 10, error_rate := 1 }],
           [{ hour := "h", endpoint := JValue.jStr "e", count := 1,
              avg_response_time := 20, error_rate := 1 }]],
        rowKey row = some k) :=
  C7_merge_stage
    [[{ hour := "h", endpoint := JValue.jStr "e", count := 3,
        avg_response_time := 10, error_rate := 1 }],
     [{ hour := "h", endpoint := JValue.jStr "e", count := 1,
        avg_response_time := 20, error_rate := 1 }]]
    (by decide)

/-- Claim C8: an exception while processing a shard is caught inside the
worker and turned into a failure result (zeroed stats) instead of crashing
the pool, and the parent's consolidation treats a failure result as a
zero-contribution shard: dropping it from the result list changes neither the
merged totals nor the final table. -/
theorem C8_worker_failure (ph : String → Option String) (lines : List RawLine)
    (rs1 rs2 : List ChunkResult) :
    ((∃ l ∈ lines, lineOk l = false) →
      process_chunk_multiprocessing ph lines = ChunkResult.failure) ∧
    consolidate (rs1 ++ ChunkResult.failure :: rs2) = consolidate (rs1 ++ rs2) ∧
    multiprocessingFinal (rs1 ++ ChunkResult.failure :: rs2)
      = multiprocessingFinal (rs1 ++ rs2) := by
  have hcons : consolidate (rs1 ++ ChunkResult.failure :: rs2)
      = consolidate (rs1 ++ rs2) := by
    unfold consolidate
    rw [List.foldl_append, List.foldl_append, List.foldl_cons]
  refine ⟨?_, hcons, ?_⟩
  · intro hbad
    rcases hbad with ⟨l, hl, hfalse⟩
    rw [process_chunk_eq, chunkFold_none_of_bad hl hfalse chunkInit]
  · unfold multiprocessingFinal
    rw [hcons]

/-- Witness for C8: a shard containing a non-object JSON line yields the
failure result, and dropping a failure result from a singleton result list
leaves consolidation unchanged. -/
theorem C8_witness :
    process_chunk_multiprocessing (fun _ => none) [RawLine.jsonNonObj]
      = ChunkResult.failure ∧
    consolidate ([ChunkResult.success 1 1 0 []] ++ ChunkResult.failure :: [])
      = consolidate ([ChunkResult.success 1 1 0 []] ++ []) ∧
    multiprocessingFinal ([ChunkResult.success 1 1 0 []] ++ ChunkResult.failure :: [])
      = multiprocessingFinal ([ChunkResult.success 1 1 0 []] ++ []) :=
  ⟨(C8_worker_failure (fun _ => none) [RawLine.jsonNonObj] [] []).1
      ⟨RawLine.jsonNonObj, List.mem_cons_self _ _, rfl⟩,
    (C8_worker_failure (fun _ => none) [RawLine.jsonNonObj]
      [ChunkResult.success 1 1 0 []] []).2.1,
    (C8_worker_failure (fun _ => none) [RawLine.jsonNonObj]
      [ChunkResult.success 1 1 0 []] []).2.2⟩

/-- Claim C9: with the input file present, the orchestrator records every
configured strategy — a raising strategy as a typed error with its message, an
unavailable-engine strategy as skipped with its reason — without aborting the
remaining strategies, and the fastest-by-throughput and most-memory-efficient
strategies are computed only over entries that are neither errors nor
skipped. -/
theorem C9_orchestrator (strats : List (String × StratOutcome)) :
    run_all_benchmarks true strats = Except.ok (benchResults strats) ∧
    (benchResults strats).length = strats.length ∧
    (∀ i n msg, strats.get? i = some (n, StratOutcome.raises msg) →
      (benchResults strats).get? i = some (n, StratResult.failed msg)) ∧
    (∀ i n reason, strats.get? i = some (n, StratOutcome.notAvail reason) →
      (benchResults strats).get? i = some (n, StratResult.skippedEntry reason)) ∧
    (∀ e, fastestStrategy (benchResults strats) = some e →
      e ∈ benchResults strats ∧ isSuccessR e.2 = true ∧
      ∀ y ∈ benchResults strats, isSuccessR y.2 = true →
        rpsOf y.2 ≤ rpsOf e.2) ∧
    (∀ e, memEfficientStrategy (benchResults strats) = some e →
      e ∈ benchResults strats ∧ isSuccessR e.2 = true ∧
      ∀ y ∈ benchResults strats, isSuccessR y.2 = true →
        memOf e.2 ≤ memOf y.2) := by
  refine ⟨rfl, List.length_map _ _, ?_, ?_, ?_, ?_⟩
  · intro i n msg h
    unfold benchResults
    rw [List.get?_map, h]
    rfl
  · intro i n reason h
    unfold benchResults
    rw [List.get?_map, h]
    rfl
  · intro e h
    exact fastestStrategy_spec h
  · intro e h
    exact memEfficientStrategy_spec h

/-- Witness for C9 on a four-strategy run: the raising strategy is recorded
as a typed error at its position, the unavailable engine as skipped, and the
fastest/most-memory-efficient computations pick a successful entry that
dominates all successful entries. -/
theorem C9_witness :
    (benchResults [("pandas_streaming", StratOutcome.ok 100 50),
                   ("multiprocessing", StratOutcome.raises "boom"),
                   ("polars", StratOutcome.notAvail "library_not_available"),
                   ("dask", StratOutcome.ok 200 10)]).get? 1
      = some ("multiprocessing", StratResult.failed "boom") ∧
    (benchResults [("pandas_streaming", StratOutcome.ok 100 50),
                   ("multiprocessing", StratOutcome.raises "boom"),
                   ("polars", StratOutcome.notAvail "library_not_available"),
                   ("dask", StratOutcome.ok 200 10)]).get? 2
      = some ("polars", StratResult.skippedEntry "library_not_available") ∧
    (∀ e, fastestStrategy (benchResults
        [("pandas_streaming", StratOutcome.ok 100 50),
         ("multiprocessing", StratOutcome.raises "boom"),
         ("polars", StratOutcome.notAvail "library_not_available"),
         ("dask", StratOutcome.ok 200 10)]) = some e →
      e ∈ benchResults [("pandas_streaming", StratOutcome.ok 100 50),
                        ("multiprocessing", StratOutcome.raises "boom"),
                        ("polars", StratOutcome.notAvail "library_not_available"),
                        ("dask", StratOutcome.ok 200 10)] ∧
      isSuccessR e.2 = true ∧
      ∀ y ∈ benchResults [("pandas_streaming", StratOutcome.ok 100 50),
                          ("multiprocessing", StratOutcome.raises "boom"),
                          ("polars", StratOutcome.notAvail "library_not_available"),
                          ("dask", StratOutcome.ok 200 10)],
        isSuccessR y.2 = true → rpsOf y.2 ≤ rpsOf e.2) :=
  ⟨(C9_orchestrator [("pandas_streaming", StratOutcome.ok 100 50),
      ("multiprocessing", StratOutcome.raises "boom"),
      ("polars", StratOutcome.notAvail "library_not_available"),
      ("dask", StratOutcome.ok 200 10)]).2.2.1 1 "multiprocessing" "boom" rfl,
    (C9_orchestrator [("pandas_streaming", StratOutcome.ok 100 50),
      ("multiprocessing", StratOutcome.raises "boom"),
      ("polars", StratOutcome.notAvail "library_not_available"),
      ("dask", StratOutcome.ok 200 10)]).2.2.2.1 2 "polars"
      "library_not_available" rfl,
    (C9_orchestrator [("pandas_streaming", StratOutcome.ok 100 50),
      ("multiprocessing", StratOutcome.raises "boom"),
      ("polars", StratOutcome.notAvail "library_not_available"),
      ("dask", StratOutcome.ok 200 10)]).2.2.2.2.1⟩

/-- Claim C10, counterexample: when the input file is missing, the
orchestrator does NOT run or record the configured strategies with
per-strategy errors; it returns the bare typed marker
`{error: input_file_not_found}` before any strategy executes. -/
theorem C10_counterexample :
    run_all_benchmarks false
        [("pandas_streaming", StratOutcome.ok 100 50),
         ("multiprocessing", StratOutcome.ok 90 60),
         ("polars", StratOutcome.notAvail "library_not_available"),
         ("dask", StratOutcome.notAvail "library_not_available")]
      = Except.error "input_file_not_found" := rfl

/-- Claim C10 (amended): a missing input file aborts the whole benchmark run
up front with the typed marker `input_file_not_found` — no strategy is run or
recorded and no comparison report is produced; only failures raised inside a
strategy's execution (file present at check time) are caught at the
per-strategy boundary and recorded as typed errors without aborting the
rest. -/
theorem C10_amended (strats : List (String × StratOutcome)) :
    run_all_benchmarks false strats = Except.error "input_file_not_found" ∧
    (∀ res, run_all_benchmarks false strats ≠ Except.ok res) ∧
    (∀ n msg, (n, StratOutcome.raises msg) ∈ strats →
      (n, StratResult.failed msg) ∈ benchResults strats ∧
      run_all_benchmarks true strats = Except.ok (benchResults strats)) := by
  refine ⟨rfl, ?_, ?_⟩
  · intro res h
    exact absurd h (by simp [run_all_benchmarks])
  · intro n msg h
    refine ⟨?_, rfl⟩
    unfold benchResults
    exact List.mem_map.2 ⟨(n, StratOutcome.raises msg), h, rfl⟩

/-- Witness for C10 on a two-strategy configuration with one raising
strategy. -/
theorem C10_witness :
    run_all_benchmarks false
        [("pandas_streaming", StratOutcome.ok 100 50),
         ("multiprocessing", StratOutcome.raises "disk error")]
      = Except.error "input_file_not_found" ∧
    ("multiprocessing", StratResult.failed "disk error")
      ∈ benchResults [("pandas_streaming", StratOutcome.ok 100 50),
                      ("multiprocessing", StratOutcome.raises "disk error")] ∧
    run_all_benchmarks true
        [("pandas_streaming", StratOutcome.ok 100 50),
         ("multiprocessing", StratOutcome.raises "disk error")]
      = Except.ok (benchResults
          [("pandas_streaming", StratOutcome.ok 100 50),
           ("multiprocessing", StratOutcome.raises "disk error")]) :=
  ⟨(C10_amended [("pandas_streaming", StratOutcome.ok 100 50),
      ("multiprocessing", StratOutcome.raises "disk error")]).1,
    ((C10_amended [("pandas_streaming", StratOutcome.ok 100 50),
      ("multiprocessing", StratOutcome.raises "disk error")]).2.2
      "multiprocessing" "disk error"
      (List.mem_cons_of_mem _ (List.mem_cons_self _ _))).1,
    ((C10_amended [("pandas_streaming", StratOutcome.ok 100 50),
      ("multiprocessing", StratOutcome.raises "disk error")]).2.2
      "multiprocessing" "disk error"
      (List.mem_cons_of_mem _ (List.mem_cons_self _ _))).2⟩
